import Mathlib

/-!
A shallow embedding of the core of docker-fw (a firewall-rule manager for
Docker containers) together with proofs about its behaviour.

The embedding follows the Go sources closely:
  * the container metadata cache (`lookupCache.go`),
  * the iptables rule model, rule store and replay engine (`iptables.go`),
  * the host-config backup checks (`state.go`, `docker.go` helpers),
  * the dependency-graph topological sort (`graph.go`).

External effects are made explicit:
  * the Docker daemon is an environment `DockerEnv` (a pure inspect/list map);
  * the iptables backend is a list of currently-installed rule texts, and every
    mutating invocation (`-I`/`-A`/`-D`) is recorded in an operation log;
  * the per-container JSON files are a map from container id to parsed content.

Go pointers to `docker.Container` records are modelled as indices into a heap
(`Cache.heap`); a fresh cell is allocated for every `InspectContainer` call, so
pointer identity (used by `applySelfReduction` and by the cache remap passes)
is preserved.  Go `uint16` ports only ever get compared with 0 and printed, so
they are modelled as `Nat`.  Go maps are association lists with unique keys.
-/

/-- `docker.PortBinding`: only `HostIP` and `HostPort` are read. -/
structure PortBindingGo where
  HostIP : String
  HostPort : String
  deriving Repr, DecidableEq

/-- The fields of `docker.HostConfig` that `asGoodAs` (docker.go) compares.
Go `[]string` distinguishes `nil` from an empty slice, hence `Option (List String)`;
`PortBindings` is the `map[docker.Port][]docker.PortBinding`. -/
structure HostConfigGo where
  NetworkMode : String
  Links : Option (List String)
  DNS : Option (List String)
  DNSSearch : Option (List String)
  ExtraHosts : Option (List String)
  VolumesFrom : Option (List String)
  Binds : Option (List String)
  CapAdd : Option (List String)
  CapDrop : Option (List String)
  PublishAllPorts : Bool
  Privileged : Bool
  RestartPolicyName : String
  PortBindings : Option (List (String × List PortBindingGo))
  deriving Repr, DecidableEq

/-- A `docker.Container` as far as docker-fw reads it: identifier, name
(with the leading slash, as the Docker API reports it), primary IPv4 address
(`NetworkSettings.IPAddress`, empty when offline), run state and the host
configuration used by the backup checks. -/
structure DockerContainer where
  id : String
  name : String
  ip : String
  running : Bool
  paused : Bool
  hostConfig : HostConfigGo
  netPorts : Option (List (String × List PortBindingGo))
  deriving Repr, DecidableEq

/-- The Docker daemon as seen through the client: `InspectContainer` and the
ids returned by `ListContainers(All: true)`.  The environment is static for
one process invocation. -/
structure DockerEnv where
  inspect : String → Option DockerContainer
  listAll : List String

/-- `CachedContainerLookup` (lookupCache.go): `containers` and
`networkAddress` are Go maps from key to `*docker.Container`; pointers are
heap indices. -/
structure Cache where
  heap : List DockerContainer
  containers : List (String × Nat)
  networkAddress : List (String × Nat)
  loadedAll : Bool

/-- Go map read (`m[k]`, with the `ok` flag given by `Option`). -/
def mapGet (m : List (String × Nat)) (k : String) : Option Nat :=
  match m.find? (fun kv => kv.1 = k) with
  | some kv => some kv.2
  | none => none

/-- Go map write (`m[k] = v`): overwrite the existing binding or add one. -/
def mapUpd (m : List (String × Nat)) (k : String) (v : Nat) : List (String × Nat) :=
  if m.any (fun kv => kv.1 = k) then
    m.map (fun kv => if kv.1 = k then (k, v) else kv)
  else
    m ++ [(k, v)]

/-- Placeholder record for dereferencing; never reachable from the states the
theorems speak about (every pointer stored in the maps is allocated first). -/
def dummyContainer : DockerContainer :=
  { id := "", name := "/", ip := "", running := false, paused := false,
    netPorts := none,
    hostConfig :=
      { NetworkMode := "", Links := none, DNS := none, DNSSearch := none,
        ExtraHosts := none, VolumesFrom := none, Binds := none, CapAdd := none,
        CapDrop := none, PublishAllPorts := false, Privileged := false,
        RestartPolicyName := "", PortBindings := none } }

/-- Dereference a container pointer. -/
def Cache.deref (st : Cache) (p : Nat) : DockerContainer :=
  st.heap.getD p dummyContainer

-- constants from iptables.go
def DOCKER_HOST : String := "172.17.42.1/32"
def DOCKER_CHAIN : String := "DOCKER"

/-- `strings.HasPrefix`. -/
def goHasPre (s pre : String) : Bool :=
  pre.data.isPrefixOf s.data

/-- `strings.HasSuffix`. -/
def goHasSuf (s suf : String) : Bool :=
  suf.data.isSuffixOf s.data

/-- Split a character list at a separator (semantics of `strings.Split` for a
one-character separator). -/
def splitChar (sep : Char) : List Char → List (List Char)
  | [] => [[]]
  | c :: cs =>
    if c = sep then [] :: splitChar sep cs
    else
      match splitChar sep cs with
      | [] => [[c]]
      | h :: t => (c :: h) :: t

/-- `strings.Split` with a one-character separator. -/
def splitOnChar (s : String) (sep : Char) : List String :=
  (splitChar sep s.data).map String.mk

/-- `ipv4[:strings.Index(ipv4, "/")]`: the prefix before the first slash. -/
def upToSlash (s : String) : String :=
  String.mk (s.data.takeWhile (fun c => c ≠ '/'))

/-- `isDockerIPv4` (iptables.go): `strings.HasPrefix(ipv4, "172.")`. -/
def isDockerIPv4 (ipv4 : String) : Bool :=
  goHasPre ipv4 "172."

/-- `CachedContainerLookup.fullRefreshContainer`: inspect one container and
bind its id, the queried alias and its name in the cache; when the caller
requires an online container also index it by network address.  Returns the
(possibly partially) updated cache together with an error, mirroring the Go
method that mutates the receiver before reporting failure. -/
def fullRefreshContainer (env : DockerEnv) (st : Cache) (id : String)
    (mustBeOnline : Bool) : Cache × Option String :=
  match env.inspect id with
  | none => (st, some ("InspectContainer failed: " ++ id))
  | some cont =>
    let p := st.heap.length
    let heap1 := st.heap ++ [cont]
    let m1 := mapUpd st.containers cont.id p
    let m2 := if id ≠ cont.id ∧ id ≠ cont.name then mapUpd m1 id p else m1
    if mustBeOnline then
      if cont.ip = "" then
        ({ st with
            heap := heap1
            containers := m2 },
          some ("Container " ++ id ++ " does not have a valid IPv4 address"))
      else
        ({ st with
            heap := heap1
            containers := mapUpd m2 (cont.name.drop 1) p
            networkAddress := mapUpd st.networkAddress cont.ip p }, none)
    else
      ({ st with
          heap := heap1
          containers := mapUpd m2 (cont.name.drop 1) p }, none)

/-- One step of the remap pass shared by `RefreshContainer` and
`LoadAllContainers`: `ccl.containers[customId] = ccl.containers[ccl.containers[customId].ID]`. -/
def remapOne (heap : List DockerContainer) (m : List (String × Nat))
    (customId : String) : List (String × Nat) :=
  match mapGet m customId with
  | none => m
  | some p =>
    match mapGet m (heap.getD p dummyContainer).id with
    | none => m
    | some q => mapUpd m customId q

/-- `CachedContainerLookup.RefreshContainer`: forced re-fetch followed by the
remap pass.  NOTE (faithful to the source): the collection loop keeps the keys
with `container.ID == id`, i.e. the canonical keys themselves, so the remap
writes `containers[ID] = containers[ID]`. -/
def RefreshContainer (env : DockerEnv) (st : Cache) (cid : String)
    (mustBeOnline : Bool) : Cache × Option String :=
  match fullRefreshContainer env st cid mustBeOnline with
  | (st1, some e) => (st1, some e)
  | (st1, none) =>
    let toReMap := (st1.containers.filter
        (fun kv => (st1.deref kv.2).id = kv.1)).map (fun kv => kv.1)
    let m2 := toReMap.foldl (remapOne st1.heap) st1.containers
    ({ st1 with containers := m2 }, none)

/-- The per-id loop inside `LoadAllContainers`. -/
def loadAllLoop (env : DockerEnv) : List String → Cache → Cache × Option String
  | [], st => (st, none)
  | id :: rest, st =>
    match fullRefreshContainer env st id false with
    | (st1, some e) => (st1, some e)
    | (st1, none) => loadAllLoop env rest st1

/-- `CachedContainerLookup.LoadAllContainers`: bulk populate once per process;
afterwards the remap pass re-points every non-canonical alias key, and
`loadedAll` freezes the cache. -/
def LoadAllContainers (env : DockerEnv) (st : Cache) : Cache × Option String :=
  if st.loadedAll then (st, none)
  else
    match loadAllLoop env env.listAll st with
    | (st1, some e) => (st1, some e)
    | (st1, none) =>
      let toReMap := (st1.containers.filter
          (fun kv => kv.1 ≠ (st1.deref kv.2).id ∧
                     kv.1 ≠ (st1.deref kv.2).name.drop 1)).map (fun kv => kv.1)
      let m2 := toReMap.foldl (remapOne st1.heap) st1.containers
      ({ st1 with
          containers := m2
          loadedAll := true }, none)

/-- `CachedContainerLookup.lookupInternal`.  The Go code can return a nil
pointer with a nil error when the refreshed entry was not bound under the
queried key (e.g. a slash-prefixed name); that unrecoverable outcome is an
explicit error here. -/
def lookupInternal (env : DockerEnv) (st : Cache) (cid : String)
    (mustBeOnline : Bool) : Cache × Except String Nat :=
  if cid = "" then (st, .error "panic: empty container id passed to lookupInternal")
  else
    match mapGet st.containers cid with
    | none =>
      if st.loadedAll then
        (st, .error ("container not found in fully preloaded cache: " ++ cid))
      else
        match fullRefreshContainer env st cid mustBeOnline with
        | (st1, some e) => (st1, .error e)
        | (st1, none) =>
          match mapGet st1.containers cid with
          | some p => (st1, .ok p)
          | none => (st1, .error "nil container returned from cache")
    | some p =>
      if mustBeOnline ∧ (st.deref p).ip = "" then
        (st, .error ("Container " ++ (st.deref p).id ++ " does not have a valid IPv4 address"))
      else
        (st, .ok p)

/-- `LookupOnlineContainer`. -/
def LookupOnlineContainer (env : DockerEnv) (st : Cache) (cid : String) :
    Cache × Except String Nat :=
  lookupInternal env st cid true

/-- `LookupContainer`. -/
def LookupContainer (env : DockerEnv) (st : Cache) (cid : String) :
    Cache × Except String Nat :=
  lookupInternal env st cid false

/-- `FindContainerByNetworkAddress`: only usable in load-all mode (the Go code
panics otherwise). -/
def FindContainerByNetworkAddress (st : Cache) (ipv4 : String) : Except String Nat :=
  if st.loadedAll then
    match mapGet st.networkAddress ipv4 with
    | none => .error ("address does not point to any container: " ++ ipv4)
    | some p => .ok p
  else
    .error "panic: Cannot lookup by network address if all entries have not been loaded"

/-- `applySelfReduction`: pointer comparison against `self`. -/
def applySelfReduction (st : Cache) (found self : Nat) : String :=
  if found = self then "." else (st.deref found).name.drop 1

/-- One octet of the `matchIpv4` regular expression:
`[0-9]|[1-9][0-9]|1[0-9]{2}|2[0-4][0-9]|25[0-5]`. -/
def isOctet (s : String) : Bool :=
  match s.data with
  | [a] => a.isDigit
  | [a, b] => ('1' ≤ a && a ≤ '9') && b.isDigit
  | [a, b, c] =>
    (a = '1' && b.isDigit && c.isDigit) ||
    (a = '2' && ('0' ≤ b && b ≤ '4') && c.isDigit) ||
    (a = '2' && b = '5' && ('0' ≤ c && c ≤ '5'))
  | _ => false

/-- The optional CIDR group `(/[0-9]{1,2})?` body. -/
def isCidrDigits (s : String) : Bool :=
  (s.data.length = 1 || s.data.length = 2) && s.data.all Char.isDigit

/-- Model of `matchIpv4.FindStringSubmatch`: `none` when the regex does not
match; on a match it returns capture groups 4 and 5 — group 4 is the *last
octet* (never empty on a match) and group 5 is the CIDR suffix including the
slash (empty when absent).  The Go code reads `res[4]`, i.e. the last octet. -/
def matchIpv4Groups (s : String) : Option (String × String) :=
  match splitOnChar s '/' with
  | [ip] =>
    match splitOnChar ip '.' with
    | [a, b, c, d] =>
      if isOctet a && isOctet b && isOctet c && isOctet d then some (d, "") else none
    | _ => none
  | [ip, cidr] =>
    match splitOnChar ip '.' with
    | [a, b, c, d] =>
      if (isOctet a && isOctet b && isOctet c && isOctet d) && isCidrDigits cidr then
        some (d, "/" ++ cidr)
      else none
    | _ => none
  | _ => none

/-- `CachedContainerLookup.ParseAddress` with `parseContainerNames` as the
reverse-lookup permission.  Returns the canonical address and the alias. -/
def ParseAddress (env : DockerEnv) (st : Cache) (addressOrAlias : String)
    (self : Nat) (parseContainerNames : Bool) :
    Cache × Except String (String × String) :=
  if addressOrAlias = "." then
    (st, .ok ((st.deref self).ip ++ "/32", addressOrAlias))
  else if addressOrAlias = "/" then
    (st, .ok (DOCKER_HOST, addressOrAlias))
  else
    match matchIpv4Groups addressOrAlias with
    | some g =>
      let ipv4 := if g.1 = "" then addressOrAlias ++ "/32" else addressOrAlias
      if isDockerIPv4 ipv4 ∧ goHasSuf ipv4 "/32" then
        if parseContainerNames then
          match LoadAllContainers env st with
          | (st1, some e) => (st1, .error e)
          | (st1, none) =>
            match FindContainerByNetworkAddress st1 (upToSlash ipv4) with
            | .error e => (st1, .error e)
            | .ok p => (st1, .ok (ipv4, applySelfReduction st1 p self))
        else
          (st, .error "trying to use Docker IPv4, use an alias instead")
      else
        (st, .ok (ipv4, ""))
    | none =>
      match lookupInternal env st addressOrAlias true with
      | (st1, .error e) => (st1, .error e)
      | (st1, .ok p) =>
        (st1, .ok ((st1.deref p).ip ++ "/32", applySelfReduction st1 p self))

/-- The rule shape (`IptablesRule` in iptables.go).  Ports are `uint16` in Go
and only ever compared with 0 and printed in decimal, so `Nat` is used. -/
structure IptablesRule where
  Source : String
  SourceAlias : String
  SourcePort : Nat
  Destination : String
  DestinationAlias : String
  DestinationPort : Nat
  Protocol : String
  Filter : String
  deriving Repr, DecidableEq

/-- `ActiveIptablesRule`: a rule plus its target chain and verdict. -/
structure ActiveIptablesRule extends IptablesRule where
  Chain : String
  JumpTo : String
  deriving Repr, DecidableEq

/-- `IptablesRule.Format`: the canonical rule text
`-s <src> -d <dst> <filter> -p <proto> -m <proto> [--dport N] [--sport N]`. -/
def IptablesRule.Format (rule : IptablesRule) : String :=
  "-s " ++ rule.Source ++ " -d " ++ rule.Destination ++ " " ++ rule.Filter ++
    " -p " ++ rule.Protocol ++ " -m " ++ rule.Protocol ++
    (if rule.DestinationPort ≠ 0 then " --dport " ++ toString rule.DestinationPort else "") ++
    (if rule.SourcePort ≠ 0 then " --sport " ++ toString rule.SourcePort else "")

/-- `ActiveIptablesRule.Format`: chain-prefixed canonical text with verdict. -/
def ActiveIptablesRule.Format (rule : ActiveIptablesRule) : String :=
  rule.Chain ++ " " ++ rule.toIptablesRule.Format ++ " -j " ++ rule.JumpTo

/-- `IptablesRule.Aliases`: the alias annotation used to compare rules. -/
def IptablesRule.Aliases (rule : IptablesRule) : String :=
  (if rule.DestinationAlias ≠ "" then
      rule.DestinationAlias ++ "=" ++ rule.Destination ++ "\n" else "") ++
  (if rule.SourceAlias ≠ "" then
      rule.SourceAlias ++ "=" ++ rule.Source ++ "\n" else "")

/-- `ActiveIptablesRule.Position`: fixed insert position per chain; any other
chain panics in Go, which surfaces as an error here. -/
def ActiveIptablesRule.Position (rule : ActiveIptablesRule) : Except String Nat :=
  if rule.Chain = "FORWARD" then .ok 2
  else if rule.Chain = "INPUT" then .ok 1
  else .error ("panic: Cannot determine position for chain " ++ rule.Chain)

/-- One invocation of the iptables binary that mutates the backend. -/
inductive FwOp where
  | ins (pos : Nat) (rule : String)
  | app (rule : String)
  | del (rule : String)
  deriving Repr, DecidableEq

/-- The whole mutable world of one docker-fw invocation: the container cache,
the live iptables state (the set of installed canonical rule texts), the
per-container persisted files, and the log of mutating backend invocations. -/
structure FwState where
  cache : Cache
  backend : List String
  ruleFiles : String → Option (List ActiveIptablesRule)
  hostConfigFiles : String → Option HostConfigGo
  ops : List FwOp

/-- `RuleExists`: `iptables --wait -C <rule>` — a pure existence query. -/
def RuleExists (st : FwState) (rule : String) : Bool :=
  st.backend.contains rule

/-- `internalDelete`: always invokes `iptables --wait -D`; the invocation
fails (non-zero exit) exactly when the rule is not installed. -/
def internalDelete (st : FwState) (rule : String) : FwState × Except String Unit :=
  let st1 := { st with ops := st.ops ++ [FwOp.del rule] }
  if st1.backend.contains rule then
    ({ st1 with backend := st1.backend.erase rule }, .ok ())
  else
    (st1, .error "cannot delete iptables rule")

/-- `internalAppend`: skip silently when the rule already exists, otherwise
`iptables --wait -A`. -/
def internalAppend (st : FwState) (rule : String) : FwState × Except String Unit :=
  if RuleExists st rule then (st, .ok ())
  else
    ({ st with
        backend := st.backend ++ [rule]
        ops := st.ops ++ [FwOp.app rule] }, .ok ())

/-- `internalInsert`: skip silently when the rule already exists, otherwise
`iptables --wait -I <pos>`. -/
def internalInsert (st : FwState) (pos : Nat) (rule : String) : FwState × Except String Unit :=
  if RuleExists st rule then (st, .ok ())
  else
    ({ st with
        backend := rule :: st.backend
        ops := st.ops ++ [FwOp.ins pos rule] }, .ok ())

/-- `LoadRules` (state.go): read the per-container rule file; a missing file
is an empty collection, not an error. -/
def LoadRules (st : FwState) (containerId : String) : List ActiveIptablesRule :=
  (st.ruleFiles containerId).getD []

/-- `IptablesRulesCollection.Save`: fully rewrite the per-container file. -/
def SaveRules (st : FwState) (containerId : String)
    (rules : List ActiveIptablesRule) : FwState :=
  { st with ruleFiles := fun k => if k = containerId then some rules else st.ruleFiles k }

/-- `IptablesRulesCollection.Remove`: `os.Remove` of the rule file; fails when
the file does not exist. -/
def RemoveRules (st : FwState) (containerId : String) : FwState × Except String Unit :=
  match st.ruleFiles containerId with
  | none => (st, .error ("remove: no such file for " ++ containerId))
  | some _ =>
    ({ st with ruleFiles := fun k => if k = containerId then none else st.ruleFiles k }, .ok ())

/-- State-level wrappers around the cache operations (they only touch the
`cache` component). -/
def stLookupOnline (env : DockerEnv) (st : FwState) (cid : String) :
    FwState × Except String Nat :=
  ({ st with cache := (LookupOnlineContainer env st.cache cid).1 },
    (LookupOnlineContainer env st.cache cid).2)

def stLookup (env : DockerEnv) (st : FwState) (cid : String) :
    FwState × Except String Nat :=
  ({ st with cache := (LookupContainer env st.cache cid).1 },
    (LookupContainer env st.cache cid).2)

def stParseAddress (env : DockerEnv) (st : FwState) (addressOrAlias : String)
    (self : Nat) (parseContainerNames : Bool) :
    FwState × Except String (String × String) :=
  ({ st with cache := (ParseAddress env st.cache addressOrAlias self parseContainerNames).1 },
    (ParseAddress env st.cache addressOrAlias self parseContainerNames).2)

/-- `recordRule`: load the owning container's collection, skip an exact
duplicate (same canonical text and same alias annotation), otherwise append
and save. -/
def recordRule (st : FwState) (containerId : String)
    (iptRule : ActiveIptablesRule) : FwState × Except String Unit :=
  let rules := LoadRules st containerId
  if rules.any (fun r => r.Format = iptRule.Format ∧ r.Aliases = iptRule.Aliases) then
    (st, .ok ())
  else
    (SaveRules st containerId (rules ++ [iptRule]), .ok ())

/-- `NewIptablesRule`: resolve both endpoints against the cache and validate
the flow specification.  No firewall-backend call and no rule-store write
happens here. -/
def NewIptablesRule (env : DockerEnv) (st : FwState) (cid : String)
    (source : String) (sourcePort : Nat) (dest : String) (destPort : Nat)
    (proto filter : String) (reverseLookupContainerIPv4 : Bool) :
    FwState × Except String IptablesRule :=
  match stLookupOnline env st cid with
  | (st1, .error e) => (st1, .error e)
  | (st1, .ok container) =>
    match stParseAddress env st1 source container reverseLookupContainerIPv4 with
    | (st2, .error e) => (st2, .error e)
    | (st2, .ok src) =>
      match stParseAddress env st2 dest container reverseLookupContainerIPv4 with
      | (st3, .error e) => (st3, .error e)
      | (st3, .ok dst) =>
        if src.1 = dst.1 then
          (st3, .error "Cannot add rule with same source and destination")
        else if src.2 ≠ "." ∧ dst.2 ≠ "." then
          (st3, .error "Either source or destination must be the container itself")
        else
          (st3, .ok { Source := src.1, SourceAlias := src.2, SourcePort := sourcePort,
                      Destination := dst.1, DestinationAlias := dst.2,
                      DestinationPort := destPort, Protocol := proto, Filter := filter })

/-- The body of the `DropRules` loop for one container id. -/
def dropOne (env : DockerEnv) (st : FwState) (cid : String) :
    FwState × Except String Bool :=
  match stLookup env st cid with
  | (st1, .error e) => (st1, .error e)
  | (st1, .ok container) =>
    let rules := LoadRules st1 (st1.cache.deref container).id
    if rules.length = 0 then
      (st1, .ok false)
    else
      let st2 := rules.foldl (fun acc r => (internalDelete acc r.Format).1) st1
      match RemoveRules st2 (st1.cache.deref container).id with
      | (st3, .error e) => (st3, .error e)
      | (st3, .ok _) => (st3, .ok true)

/-- `DropRules`: NOTE (faithful to the source) — a container with an empty
collection makes the whole invocation `return nil` immediately, skipping every
container after it in the list. -/
def DropRules (env : DockerEnv) (st : FwState) :
    List String → FwState × Except String Unit
  | [] => (st, .ok ())
  | cid :: rest =>
    match dropOne env st cid with
    | (st1, .error e) => (st1, .error e)
    | (st1, .ok false) => (st1, .ok ())
    | (st1, .ok true) => DropRules env st1 rest

/-- Replay can stop with a returned `(code, err)` pair or with a Go panic. -/
inductive ReplayErr where
  | fail (code : Nat) (msg : String)
  | fatal (msg : String)
  deriving Repr, DecidableEq

/-- The de-aliasing step of the replay loop for one endpoint: when the rule
carries an alias, re-resolve it against the current cache and report whether
the resolved address differs from the stored one. -/
def dealiasEndpoint (env : DockerEnv) (st : FwState) (self : Nat)
    (aliasStr stored : String) : FwState × Except String (String × Bool) :=
  if aliasStr ≠ "" then
    match stParseAddress env st aliasStr self false with
    | (st1, .error e) => (st1, .error e)
    | (st1, .ok res) =>
      if stored ≠ res.1 then (st1, .ok (res.1, true)) else (st1, .ok (stored, false))
  else (st, .ok (stored, false))

/-- The "first, (attempt to) remove old rule" stage of the replay loop body:
when the re-resolved text differs from the stored one, a dry run only reports
(and only when the old text is actually installed), a live run issues the
best-effort delete.  Returns the state and the updated `hasChanges` flag. -/
def replayDropOld (dryRun : Bool) (st : FwState) (rule oldRule : String)
    (hasChanges : Bool) : FwState × Bool :=
  if rule ≠ oldRule then
    if dryRun then
      if RuleExists st oldRule then (st, true) else (st, hasChanges)
    else ((internalDelete st oldRule).1, hasChanges)
  else (st, hasChanges)

/-- The "check if new rule is already there" stage of the replay loop body:
when the current text is missing, a dry run only reports, a live run appends
(filter sub-chain) or inserts at the chain's fixed position. -/
def replayEnsure (dryRun : Bool) (st : FwState) (r1 : ActiveIptablesRule)
    (rule : String) (hasChanges : Bool) : FwState × Except ReplayErr Bool :=
  if RuleExists st rule then (st, .ok hasChanges)
  else
    if r1.Chain = DOCKER_CHAIN then
      if dryRun then (st, .ok true)
      else
        match internalAppend st rule with
        | (st4, .error e) => (st4, .error (.fail 5 e))
        | (st4, .ok _) => (st4, .ok hasChanges)
    else
      if dryRun then (st, .ok true)
      else
        match r1.Position with
        | .error e => (st, .error (.fatal e))
        | .ok pos =>
          match internalInsert st pos rule with
          | (st4, .error e) => (st4, .error (.fail 6 e))
          | (st4, .ok _) => (st4, .ok hasChanges)

/-- The body of the per-rule loop of `ReplayRules`: de-alias both endpoints,
drop the superseded rule text (dry-run: only report), then make sure the
current rule text is installed (dry-run: only report). -/
def replayRule (env : DockerEnv) (dryRun : Bool) (self : Nat) (st : FwState)
    (r : ActiveIptablesRule) (changed hasChanges : Bool) :
    FwState × Except ReplayErr (ActiveIptablesRule × Bool × Bool) :=
  let oldRule := r.Format
  match dealiasEndpoint env st self r.SourceAlias r.Source with
  | (st1, .error e) => (st1, .error (.fail 3 e))
  | (st1, .ok src) =>
    match dealiasEndpoint env st1 self r.DestinationAlias r.Destination with
    | (st2, .error e) => (st2, .error (.fail 4 e))
    | (st2, .ok dst) =>
      let r1 := { r with
        Source := src.1
        Destination := dst.1 }
      let changed1 := changed || src.2 || dst.2
      let rule := r1.Format
      let step := replayDropOld dryRun st2 rule oldRule hasChanges
      match replayEnsure dryRun step.1 r1 rule step.2 with
      | (st4, .error e) => (st4, .error e)
      | (st4, .ok hc) => (st4, .ok (r1, changed1, hc))

/-- The per-rule loop of `ReplayRules` over one container's collection. -/
def replayRulesLoop (env : DockerEnv) (dryRun : Bool) (self : Nat) :
    FwState → List ActiveIptablesRule → List ActiveIptablesRule → Bool → Bool →
    FwState × Except ReplayErr (List ActiveIptablesRule × Bool × Bool)
  | st, [], acc, changed, hasChanges => (st, .ok (acc, changed, hasChanges))
  | st, r :: rest, acc, changed, hasChanges =>
    match replayRule env dryRun self st r changed hasChanges with
    | (st1, .error e) => (st1, .error e)
    | (st1, .ok (r1, c1, h1)) =>
      replayRulesLoop env dryRun self st1 rest (acc ++ [r1]) c1 h1

/-- One container of the `ReplayRules` loop: look it up online, walk its
persisted collection, and in live mode persist the collection again when any
address changed. -/
def replayContainer (env : DockerEnv) (dryRun : Bool) (st : FwState)
    (cidx : String) (hasChanges : Bool) : FwState × Except ReplayErr Bool :=
  match stLookupOnline env st cidx with
  | (st1, .error e) => (st1, .error (.fail 1 e))
  | (st1, .ok self) =>
    let cid := (st1.cache.deref self).id
    let rules := LoadRules st1 cid
    match replayRulesLoop env dryRun self st1 rules [] false hasChanges with
    | (st2, .error e) => (st2, .error e)
    | (st2, .ok (newRules, changed, h1)) =>
      let h2 := if changed then true else h1
      if ¬ dryRun ∧ changed then (SaveRules st2 cid newRules, .ok h2)
      else (st2, .ok h2)

/-- The container loop of `ReplayRules`. -/
def replayLoop (env : DockerEnv) (dryRun : Bool) :
    FwState → List String → Bool → FwState × Except ReplayErr Bool
  | st, [], hasChanges => (st, .ok hasChanges)
  | st, cid :: rest, hasChanges =>
    match replayContainer env dryRun st cid hasChanges with
    | (st1, .error e) => (st1, .error e)
    | (st1, .ok h1) => replayLoop env dryRun st1 rest h1

/-- `ReplayRules`: returns the Go `(int, error)` pair as `Except`; a dry run
that detects pending changes returns the distinguished non-zero result 1. -/
def ReplayRules (env : DockerEnv) (st : FwState) (cids : List String)
    (dryRun : Bool) : FwState × Except ReplayErr Nat :=
  match replayLoop env dryRun st cids false with
  | (st1, .error e) => (st1, .error e)
  | (st1, .ok hasChanges) =>
    if dryRun ∧ hasChanges then (st1, .ok 1) else (st1, .ok 0)

/-- Byte-wise lexicographic comparison used to model `sort.Strings`. -/
def listCharLe : List Char → List Char → Bool
  | [], _ => true
  | _ :: _, [] => false
  | a :: as, b :: bs =>
    if a.toNat < b.toNat then true
    else if b.toNat < a.toNat then false
    else listCharLe as bs

/-- `sort.Strings`: sort a string slice lexicographically.  Only the fact
that both sides get sorted by one total order matters to the comparison. -/
def sortStrings (l : List String) : List String :=
  List.insertionSort (fun a b => listCharLe a.data b.data = true) l

/-- `areEquivalentArrays` (docker.go).  NOTE (faithful to the source): the
nil test reads `a == nil && a == nil`, so a nil `a` matches any `b`. -/
def areEquivalentArrays (a b : Option (List String)) : Bool :=
  if a = none ∧ a = none then true
  else if (a.getD []).length ≠ (b.getD []).length then false
  else decide (sortStrings (a.getD []) = sortStrings (b.getD []))

/-- Serialization of one `[]docker.PortBinding` inside `arePortBindingsEqual`. -/
def serializeBindings (v : List PortBindingGo) : List String :=
  v.map (fun bind => bind.HostIP ++ ":" ++ bind.HostPort)

/-- `arePortBindingsEqual` (docker.go): keys must be equivalent and the
serialized values at each key of `a` must be equivalent (a missing key in `b`
yields the nil slice). -/
def arePortBindingsEqual
    (a b : Option (List (String × List PortBindingGo))) : Bool :=
  if a = none ∧ b = none then true
  else if (a.getD []).length ≠ (b.getD []).length then false
  else
    let aKeys := (a.getD []).map (fun kv => kv.1)
    let bKeys := (b.getD []).map (fun kv => kv.1)
    areEquivalentArrays (some aKeys) (some bKeys) &&
      (a.getD []).all (fun kv =>
        areEquivalentArrays (some (serializeBindings kv.2))
          (((b.getD []).find? (fun kv2 => kv2.1 = kv.1)).map
            (fun kv2 => serializeBindings kv2.2)))

/-- `asGoodAs` (docker.go): the consistency test used by the fail-on-change
host-config backup. -/
def asGoodAs (orig current : HostConfigGo) : Bool :=
  decide (orig.NetworkMode = current.NetworkMode) &&
  areEquivalentArrays orig.Links current.Links &&
  areEquivalentArrays orig.DNS current.DNS &&
  areEquivalentArrays orig.DNSSearch current.DNSSearch &&
  areEquivalentArrays orig.ExtraHosts current.ExtraHosts &&
  areEquivalentArrays orig.VolumesFrom current.VolumesFrom &&
  areEquivalentArrays orig.Binds current.Binds &&
  areEquivalentArrays orig.CapAdd current.CapAdd &&
  areEquivalentArrays orig.CapDrop current.CapDrop &&
  decide (orig.PublishAllPorts = current.PublishAllPorts) &&
  decide (orig.RestartPolicyName = current.RestartPolicyName) &&
  decide (orig.Privileged = current.Privileged) &&
  decide (orig.PublishAllPorts = current.PublishAllPorts) &&
  arePortBindingsEqual orig.PortBindings current.PortBindings

/-- `backupHostConfig` (lowercase, state.go): serialize the container's host
configuration — with `NetworkSettings.Ports` substituted for the port
bindings when merging — into the per-container snapshot file. -/
def backupHostConfigWrite (st : FwState) (cont : DockerContainer)
    (mergeNetworkSettings : Bool) : FwState :=
  let cfg :=
    if mergeNetworkSettings then
      { cont.hostConfig with PortBindings := cont.netPorts }
    else cont.hostConfig
  { st with
      hostConfigFiles := fun k => if k = cont.id then some cfg else st.hostConfigFiles k }

/-- The body of the `BackupHostConfig` loop for one container id. -/
def backupOne (env : DockerEnv) (st : FwState) (userCid : String)
    (mergeNetworkSettings failOnChange : Bool) : FwState × Except String Unit :=
  match stLookupOnline env st userCid with
  | (st1, .error e) => (st1, .error e)
  | (st1, .ok p) =>
    let cont := st1.cache.deref p
    if ¬ cont.running then
      (st1, .error ("Container " ++ cont.name.drop 1 ++ " is not running"))
    else
      let driftError :=
        if failOnChange then
          match st1.hostConfigFiles cont.id with
          | none => false
          | some orig0 =>
            let orig :=
              if orig0.RestartPolicyName = "" then
                { orig0 with RestartPolicyName := "no" }
              else orig0
            ¬ asGoodAs orig cont.hostConfig
        else false
      if driftError then
        (st1, .error ("Container " ++ cont.name.drop 1 ++
          " has inconsistently changed host configuration"))
      else
        (backupHostConfigWrite st1 cont mergeNetworkSettings, .ok ())

/-- `BackupHostConfig` (state.go): per requested container, enforce the
container is running, optionally verify the saved snapshot is still
`asGoodAs` the live configuration, then re-persist the snapshot. -/
def BackupHostConfig (env : DockerEnv) (st : FwState)
    (mergeNetworkSettings failOnChange : Bool) :
    List String → FwState × Except String Unit
  | [] => (st, .ok ())
  | userCid :: rest =>
    match backupOne env st userCid mergeNetworkSettings failOnChange with
    | (st1, .error e) => (st1, .error e)
    | (st1, .ok _) =>
      BackupHostConfig env st1 mergeNetworkSettings failOnChange rest

/-!  The dependency graph (graph.go).  A `Node` is identified by a natural
number; `LinkTo` edges are kept as a list of (parent, child) pairs, so a
node's `children` slice is the list of targets of its outgoing edges (in
insertion order) and its `ingress` counter is its in-degree — exactly the
state `NewNode`/`LinkTo` build up.  `ingress` is an `int` in Go and is
decremented below zero by the sort, hence `Int` here. -/

/-- The `ingress` counter of `v` as produced by the `LinkTo` calls. -/
def inDeg (edges : List (Nat × Nat)) (v : Nat) : Int :=
  ((edges.filter (fun e => e.2 = v)).length : Int)

/-- The `children` slice of `v` as produced by the `LinkTo` calls. -/
def childrenOf (edges : List (Nat × Nat)) (v : Nat) : List Nat :=
  (edges.filter (fun e => e.1 = v)).map (fun e => e.2)

/-- The inner loop of `TopSort`: decrement every child's ingress counter and
collect (in order) the children whose counter just reached zero. -/
def decChildren : List Nat → (Nat → Int) → ((Nat → Int) × List Nat)
  | [], ing => (ing, [])
  | c :: cs, ing =>
    let ing1 := fun v => if v = c then ing v - 1 else ing v
    let res := decChildren cs ing1
    (res.1, if ing1 c = 0 then c :: res.2 else res.2)

/-- The `for len(zero) > 0` loop of `TopSort`.  The fuel only bounds the
iteration count; every node enters the `zero` queue at most once beyond the
initial frontier (its counter strictly decreases and is tested against zero
after each decrement), so `|nodes| + |edges|` iterations always suffice and
the fuelled loop agrees with the Go loop. -/
def kahnLoop (children : Nat → List Nat) :
    Nat → (Nat → Int) → List Nat → List Nat → List Nat
  | 0, _, _, sorted => sorted
  | _ + 1, _, [], sorted => sorted
  | fuel + 1, ing, node :: rest, sorted =>
    let dec := decChildren (children node) ing
    kahnLoop children fuel dec.1 (rest ++ dec.2) (sorted ++ [node])

/-- `SortableNodeArray.TopSort` without the final cycle check: Kahn's
algorithm over the node list `nodes` whose `LinkTo` state is `edges`. -/
def TopSortRaw (nodes : List Nat) (edges : List (Nat × Nat)) : List Nat :=
  kahnLoop (childrenOf edges) (nodes.length + edges.length) (inDeg edges)
    (nodes.filter (fun v => inDeg edges v = 0)) []

/-- `SortableNodeArray.TopSort` including the `len(sorted) < len(arr)` cycle
check, whose Go outcome is a panic. -/
def TopSort (nodes : List Nat) (edges : List (Nat × Nat)) :
    Except String (List Nat) :=
  let sorted := TopSortRaw nodes edges
  if sorted.length < nodes.length then .error "panic: found cycle in DAG"
  else .ok sorted

/-- Edge-path reachability in the dependency graph. -/
inductive Reaches (edges : List (Nat × Nat)) : Nat → Nat → Prop where
  | single {u v : Nat} : (u, v) ∈ edges → Reaches edges u v
  | cons {u w v : Nat} : (u, w) ∈ edges → Reaches edges w v → Reaches edges u v

/-- A graph is acyclic when no node reaches itself through a non-empty path. -/
def AcyclicEdges (edges : List (Nat × Nat)) : Prop :=
  ∀ v, ¬ Reaches edges v v

/-- No space character occurs in the string.  Container addresses and aliases
satisfy this; it is what makes two canonical rule texts differ whenever their
endpoint addresses differ. -/
def noSpace (s : String) : Prop :=
  ∀ c ∈ s.data, c ≠ ' '

instance (s : String) : Decidable (noSpace s) := by
  unfold noSpace; infer_instance

/-- The chains a persisted rule can carry (the three add actions). -/
def chainOk (r : ActiveIptablesRule) : Prop :=
  r.Chain = "FORWARD" ∨ r.Chain = "INPUT" ∨ r.Chain = DOCKER_CHAIN

/-- Well-formedness of one persisted rule: space-free endpoint addresses and
aliases, and a chain of one of the three add actions. -/
def ruleWf (r : ActiveIptablesRule) : Prop :=
  noSpace r.Source ∧ noSpace r.Destination ∧ noSpace r.SourceAlias ∧
    noSpace r.DestinationAlias ∧ chainOk r

/-- Well-formedness of the rule store. -/
def ruleFilesWf (files : String → Option (List ActiveIptablesRule)) : Prop :=
  ∀ k rs, files k = some rs → ∀ r ∈ rs, ruleWf r

/-- Every container the daemon can report has a space-free address. -/
def envWf (env : DockerEnv) : Prop :=
  ∀ id c, env.inspect id = some c → noSpace c.ip

/-- Every record in the cache heap has a space-free address. -/
def heapWf (c : Cache) : Prop :=
  ∀ cont ∈ c.heap, noSpace cont.ip

/-- The non-cache components of two states agree (used to express that cache
lookups perform no firewall-backend call and no file write). -/
def sameButCache (a b : FwState) : Prop :=
  a.backend = b.backend ∧ a.ruleFiles = b.ruleFiles ∧
    a.hostConfigFiles = b.hostConfigFiles ∧ a.ops = b.ops

-- ------------------------------------------------------------------
-- Concrete fixtures used by witnesses and counterexamples.
-- ------------------------------------------------------------------

/-- An all-default host configuration. -/
def hc0 : HostConfigGo := dummyContainer.hostConfig

/-- Fixture: an online container named `web`. -/
def contW : DockerContainer :=
  { id := "aaaa", name := "/web", ip := "10.0.0.5", running := true,
    paused := false, hostConfig := hc0, netPorts := none }

/-- Fixture environment that knows only `contW`. -/
def envW : DockerEnv :=
  { inspect := fun s => if s = "aaaa" then some contW else none,
    listAll := ["aaaa"] }

/-- Fixture cache already holding `contW` under id, name and address. -/
def cacheW : Cache :=
  { heap := [contW], containers := [("aaaa", 0), ("web", 0)],
    networkAddress := [("10.0.0.5", 0)], loadedAll := false }

/-- Fixture world with empty backend and no files. -/
def stW : FwState :=
  { cache := cacheW, backend := [], ruleFiles := fun _ => none,
    hostConfigFiles := fun _ => none, ops := [] }

/-- Fixture rule: `allow 10.0.0.9 -> web:8080/tcp` recorded on `web`. -/
def ruleW : ActiveIptablesRule :=
  { Source := "10.0.0.9/32", SourceAlias := "db", SourcePort := 0,
    Destination := "10.0.0.5/32", DestinationAlias := ".", DestinationPort := 8080,
    Protocol := "tcp", Filter := "", Chain := "FORWARD", JumpTo := "DOCKER" }

/-- Fixture world where `web` has one persisted rule. -/
def stW6 : FwState :=
  { stW with ruleFiles := fun k => if k = "aaaa" then some [ruleW] else none }

/-- Fixture (C4): the stale record of container `abcdef` before a restart. -/
def c4old : DockerContainer :=
  { id := "abcdef", name := "/oldweb", ip := "10.0.0.5", running := true,
    paused := false, hostConfig := hc0, netPorts := none }

/-- Fixture (C4): the fresh record the daemon reports after the restart. -/
def c4new : DockerContainer :=
  { id := "abcdef", name := "/oldweb", ip := "10.0.0.11", running := true,
    paused := false, hostConfig := hc0, netPorts := none }

/-- Fixture (C4): daemon knowing the fresh record. -/
def envC4 : DockerEnv :=
  { inspect := fun s => if s = "abcdef" then some c4new else none,
    listAll := ["abcdef"] }

/-- Fixture (C4): cache where the short id `abc`, the full id and the name all
point at the stale record (as an earlier lookup by short id leaves it). -/
def cacheC4 : Cache :=
  { heap := [c4old],
    containers := [("abc", 0), ("abcdef", 0), ("oldweb", 0)],
    networkAddress := [("10.0.0.5", 0)], loadedAll := false }

/-- Fixture (C8): saved host-config snapshot with nil `Links`. -/
def cfgSaved : HostConfigGo := { hc0 with RestartPolicyName := "no" }

/-- Fixture (C8): the container's current host configuration — it differs
from the saved snapshot in the compared field `Links`. -/
def cfgCur : HostConfigGo :=
  { hc0 with
      RestartPolicyName := "no"
      Links := some ["/db:/web/db"] }

/-- Fixture (C8): a running container whose live host configuration drifted. -/
def contC8 : DockerContainer :=
  { id := "c1", name := "/web", ip := "10.0.0.5", running := true,
    paused := false, hostConfig := cfgCur, netPorts := none }

/-- Fixture (C8): environment (never consulted — the cache already hits). -/
def envC8 : DockerEnv := { inspect := fun _ => none, listAll := [] }

/-- Fixture (C8): world with the saved snapshot on file. -/
def stC8 : FwState :=
  { cache := { heap := [contC8], containers := [("c1", 0)],
               networkAddress := [], loadedAll := false },
    backend := [], ruleFiles := fun _ => none,
    hostConfigFiles := fun k => if k = "c1" then some cfgSaved else none,
    ops := [] }

/-- `DropRules` processed every listed container the normal way: the
container was found, its collection was non-empty, its rules were deleted and
its file removed. -/
def dropsAll (env : DockerEnv) : FwState → List String → FwState → Prop
  | st, [], st' => st' = st
  | st, cid :: rest, st' =>
    ∃ stm, dropOne env st cid = (stm, .ok true) ∧ dropsAll env stm rest st'

/-- Fixture (C10): a container `one` with one tracked rule. -/
def contD1 : DockerContainer :=
  { id := "d1", name := "/one", ip := "10.0.0.2", running := true,
    paused := false, hostConfig := hc0, netPorts := none }

/-- Fixture (C10): the rule tracked for `one`. -/
def ruleD : ActiveIptablesRule :=
  { Source := "10.0.0.9/32", SourceAlias := "db", SourcePort := 0,
    Destination := "10.0.0.2/32", DestinationAlias := ".", DestinationPort := 80,
    Protocol := "tcp", Filter := "", Chain := "FORWARD", JumpTo := "DOCKER" }

/-- Fixture (C10): environment knowing `one` and `web`. -/
def envC10 : DockerEnv :=
  { inspect := fun s =>
      if s = "d1" then some contD1 else if s = "aaaa" then some contW else none,
    listAll := ["d1", "aaaa"] }

/-- Fixture (C10): cache holding `one` and `web`. -/
def cacheC10 : Cache :=
  { heap := [contD1, contW],
    containers := [("d1", 0), ("one", 0), ("aaaa", 1), ("web", 1)],
    networkAddress := [], loadedAll := false }

/-- Fixture (C10): world where `one` has a rule on file and in the backend
and `web` has none. -/
def stC10 : FwState :=
  { cache := cacheC10, backend := [ruleD.Format],
    ruleFiles := fun k => if k = "d1" then some [ruleD] else none,
    hostConfigFiles := fun _ => none, ops := [] }

/-- Fixture (C10): the world after `one` has been dropped. -/
def stC10a : FwState :=
  { cache := cacheC10, backend := [],
    ruleFiles := fun k => if k = "d1" then none
      else if k = "d1" then some [ruleD] else none,
    hostConfigFiles := fun _ => none, ops := [FwOp.del ruleD.Format] }

/-- Fixture (C7): a container owning the bridge address `172.17.0.5`. -/
def contX : DockerContainer :=
  { id := "xid", name := "/xc", ip := "172.17.0.5", running := true,
    paused := false, hostConfig := hc0, netPorts := none }

/-- Fixture (C7): a fully populated cache indexing `contX` by address. -/
def cacheX : Cache :=
  { heap := [contX], containers := [("xid", 0), ("xc", 0)],
    networkAddress := [("172.17.0.5", 0)], loadedAll := true }

/-- Fixture (C7): environment (never consulted — the cache is preloaded). -/
def envX : DockerEnv := { inspect := fun _ => none, listAll := [] }

/-- In-degree of `v` as a count (`inDeg` viewed in `Nat`). -/
def degN (E : List (Nat × Nat)) (v : Nat) : Nat :=
  E.countP (fun e => decide (e.2 = v))

/-- Number of edges into `v` whose source has already been popped (lies in
`S`). -/
def cntN (E : List (Nat × Nat)) (S : List Nat) (v : Nat) : Nat :=
  E.countP (fun e => decide (e.2 = v) && decide (e.1 ∈ S))

/-- Number of parallel edges from `n` to `v`. -/
def chCount (E : List (Nat × Nat)) (n v : Nat) : Nat :=
  E.countP (fun e => decide (e.1 = n) && decide (e.2 = v))

/-- The loop invariant of Kahn's algorithm (graph.go `TopSort`): the popped
and queued nodes are distinct nodes of `V`; every counter holds its in-degree
minus the edges already processed; a node has been seen iff its counter is
exhausted; the popped list is topologically ordered; every seen node is
accessible along reversed edges; and the fuel still covers the remaining
iterations. -/
def KInv (V : List Nat) (E : List (Nat × Nat)) (fuel : Nat) (ing : Nat → Int)
    (zero sorted : List Nat) : Prop :=
  (sorted ++ zero).Nodup ∧
  (∀ x ∈ sorted ++ zero, x ∈ V) ∧
  (∀ v, ing v = (degN E v : Int) - (cntN E sorted v : Int)) ∧
  (∀ v ∈ V, (v ∈ sorted ++ zero ↔ ing v ≤ 0)) ∧
  (∀ u v, (u, v) ∈ E → v ∈ sorted →
    u ∈ sorted ∧ sorted.indexOf u < sorted.indexOf v) ∧
  (∀ x ∈ sorted ++ zero, Acc (fun a b => (a, b) ∈ E) x) ∧
  V.length ≤ fuel + sorted.length

/-- What holds of the list Kahn's loop returns. -/
def KPost (V : List Nat) (E : List (Nat × Nat)) (final : List Nat) : Prop :=
  final.Nodup ∧
  (∀ x ∈ final, x ∈ V) ∧
  (∀ u v, (u, v) ∈ E → v ∈ final →
    u ∈ final ∧ final.indexOf u < final.indexOf v) ∧
  (∀ x ∈ final, Acc (fun a b => (a, b) ∈ E) x) ∧
  (∀ v ∈ V, (∀ u, (u, v) ∈ E → u ∈ final) → v ∈ final)

/-- The characters of the canonical rule text after the destination address
and its separating space: a function of every rule field except the two
endpoint addresses. -/
def formatTail (r : ActiveIptablesRule) : List Char :=
  (r.Filter ++ " -p " ++ r.Protocol ++ " -m " ++ r.Protocol ++
    (if r.DestinationPort ≠ 0 then " --dport " ++ toString r.DestinationPort else "") ++
    (if r.SourcePort ≠ 0 then " --sport " ++ toString r.SourcePort else "") ++
    " -j " ++ r.JumpTo).data

/-- Fixture (C1): the container `web` whose one tracked rule text is missing
from the backend. -/
def contC1 : DockerContainer :=
  { id := "w1", name := "/web", ip := "10.0.0.5", running := true,
    paused := false, hostConfig := hc0, netPorts := none }

/-- Fixture (C1): an inert daemon (the cache is fully preloaded). -/
def envC1 : DockerEnv :=
  { inspect := fun _ => none, listAll := [] }

/-- Fixture (C1): a fully preloaded cache holding `contC1`. -/
def cacheC1 : Cache :=
  { heap := [contC1], containers := [("w1", 0), ("web", 0)],
    networkAddress := [], loadedAll := true }

/-- Fixture (C1): the one persisted rule of `web` (no aliases). -/
def ruleC1 : ActiveIptablesRule :=
  { Source := "10.0.0.9/32", SourceAlias := "", SourcePort := 0,
    Destination := "10.0.0.5/32", DestinationAlias := "", DestinationPort := 8080,
    Protocol := "tcp", Filter := "", Chain := "FORWARD", JumpTo := "ACCEPT" }

/-- Fixture (C1): starting world with an empty backend, so a replay of `web`
has work to do. -/
def stC1 : FwState :=
  { cache := cacheC1, backend := [],
    ruleFiles := fun k => if k = "w1" then some [ruleC1] else none,
    hostConfigFiles := fun _ => none, ops := [] }

instance (r : ActiveIptablesRule) : Decidable (chainOk r) := by
  unfold chainOk; infer_instance

instance (r : ActiveIptablesRule) : Decidable (ruleWf r) := by
  unfold ruleWf; infer_instance

instance (c : Cache) : Decidable (heapWf c) := by
  unfold heapWf; infer_instance

/-- Fixture (C2): the container `web` owning the stale rule. -/
def contC2 : DockerContainer :=
  { id := "w2", name := "/web", ip := "10.0.0.5", running := true,
    paused := false, hostConfig := hc0, netPorts := none }

/-- Fixture (C2): the restarted peer `db`, now at 10.0.0.11. -/
def contC2b : DockerContainer :=
  { id := "d2", name := "/db", ip := "10.0.0.11", running := true,
    paused := false, hostConfig := hc0, netPorts := none }

/-- Fixture (C2): an inert daemon (the cache is fully preloaded). -/
def envC2 : DockerEnv :=
  { inspect := fun _ => none, listAll := [] }

/-- Fixture (C2): a fully preloaded cache holding `web` and `db`. -/
def cacheC2 : Cache :=
  { heap := [contC2, contC2b],
    containers := [("w2", 0), ("web", 0), ("d2", 1), ("db", 1)],
    networkAddress := [], loadedAll := true }

/-- Fixture (C2): the persisted rule `allow db -> web:8080/tcp`, whose stored
source address 10.0.0.9 is stale. -/
def ruleC2 : ActiveIptablesRule :=
  { Source := "10.0.0.9/32", SourceAlias := "db", SourcePort := 0,
    Destination := "10.0.0.5/32", DestinationAlias := ".", DestinationPort := 8080,
    Protocol := "tcp", Filter := "", Chain := "FORWARD", JumpTo := "ACCEPT" }

/-- Fixture (C2): starting world whose backend still holds the old rule text. -/
def stC2 : FwState :=
  { cache := cacheC2, backend := [ruleC2.Format],
    ruleFiles := fun k => if k = "w2" then some [ruleC2] else none,
    hostConfigFiles := fun _ => none, ops := [] }

-- ------------------------------------------------------------------
-- Theorems.
-- ------------------------------------------------------------------

theorem stLookup_frame (env : DockerEnv) (st : FwState) (cid : String) :
    sameButCache (stLookup env st cid).1 st :=
  ⟨rfl, rfl, rfl, rfl⟩

theorem stLookupOnline_frame (env : DockerEnv) (st : FwState) (cid : String) :
    sameButCache (stLookupOnline env st cid).1 st :=
  ⟨rfl, rfl, rfl, rfl⟩

theorem stParseAddress_frame (env : DockerEnv) (st : FwState) (a : String)
    (self : Nat) (names : Bool) :
    sameButCache (stParseAddress env st a self names).1 st :=
  ⟨rfl, rfl, rfl, rfl⟩

/-- C6: recording a rule whose canonical textual form and alias annotations
both already occur in the container's persisted collection is a no-op: the
whole world is left unchanged (in particular the rule file is not rewritten
and the collection keeps its length) and the call reports success. -/
theorem recordRule_duplicate_noop (st : FwState) (cid : String)
    (rule : ActiveIptablesRule)
    (h : ∃ r ∈ LoadRules st cid, r.Format = rule.Format ∧ r.Aliases = rule.Aliases) :
    recordRule st cid rule = (st, .ok ()) ∧
      (LoadRules (recordRule st cid rule).1 cid).length = (LoadRules st cid).length := by
  obtain ⟨r, hr, h1, h2⟩ := h
  have hany : (LoadRules st cid).any
      (fun r => decide (r.Format = rule.Format ∧ r.Aliases = rule.Aliases)) = true := by
    rw [List.any_eq_true]
    exact ⟨r, hr, by simp [h1, h2]⟩
  have heq : recordRule st cid rule = (st, .ok ()) := by
    unfold recordRule
    simp only [hany]
    rfl
  exact ⟨heq, by rw [heq]⟩

/-- Witness for C6 at a concrete world: `web` already tracks `ruleW`. -/
theorem recordRule_duplicate_noop_witness :
    recordRule stW6 "aaaa" ruleW = (stW6, .ok ()) ∧
      (LoadRules (recordRule stW6 "aaaa" ruleW).1 "aaaa").length =
        (LoadRules stW6 "aaaa").length :=
  recordRule_duplicate_noop stW6 "aaaa" ruleW
    ⟨ruleW, by simp [LoadRules, stW6], rfl, rfl⟩

/-- C9: dropping rules for a container whose persisted collection is empty
(missing file or a file read back as an empty list) reports success, performs
no backend invocation, and does not delete the rule file. -/
theorem dropRules_empty_success (env : DockerEnv) (st st1 : FwState)
    (cid : String) (p : Nat)
    (hlk : stLookup env st cid = (st1, .ok p))
    (hempty : LoadRules st1 (st1.cache.deref p).id = []) :
    DropRules env st [cid] = (st1, .ok ()) ∧
      st1.ruleFiles = st.ruleFiles ∧ st1.backend = st.backend ∧ st1.ops = st.ops := by
  have hframe := stLookup_frame env st cid
  rw [hlk] at hframe
  have hdrop : dropOne env st cid = (st1, .ok false) := by
    unfold dropOne
    rw [hlk]
    simp [hempty]
  refine ⟨?_, hframe.2.1, hframe.1, hframe.2.2.2⟩
  show (match dropOne env st cid with
    | (st1, .error e) => (st1, .error e)
    | (st1, .ok false) => (st1, .ok ())
    | (st1, .ok true) => DropRules env st1 []) = (st1, .ok ())
  rw [hdrop]

/-- Witness for C9: dropping rules of `web`, which has no rule file. -/
theorem dropRules_empty_success_witness :
    DropRules envW stW ["web"] = (stW, .ok ()) ∧
      stW.ruleFiles = stW.ruleFiles ∧ stW.backend = stW.backend ∧ stW.ops = stW.ops :=
  dropRules_empty_success envW stW stW "web" 0 rfl rfl

/-- C5: `NewIptablesRule` rejects (with no firewall-backend call and no
rule-store write — only the cache may change) every rule whose resolved
source and destination addresses coincide, and every rule where neither
side's alias is the self marker `.`; in particular source `.` and
destination `.` fail with the same-source-destination error. -/
theorem newIptablesRule_validation (env : DockerEnv) (st st1 st2 st3 : FwState)
    (cid source dest : String) (sourcePort destPort : Nat)
    (proto filter : String) (rev : Bool) (p : Nat) (sr dr : String × String)
    (hlk : stLookupOnline env st cid = (st1, .ok p))
    (hsrc : stParseAddress env st1 source p rev = (st2, .ok sr))
    (hdst : stParseAddress env st2 dest p rev = (st3, .ok dr)) :
    (sr.1 = dr.1 →
      NewIptablesRule env st cid source sourcePort dest destPort proto filter rev =
        (st3, .error "Cannot add rule with same source and destination")) ∧
    (sr.2 ≠ "." → dr.2 ≠ "." →
      ∃ e, NewIptablesRule env st cid source sourcePort dest destPort proto filter rev =
        (st3, .error e)) ∧
    (source = "." → dest = "." →
      NewIptablesRule env st cid source sourcePort dest destPort proto filter rev =
        (st3, .error "Cannot add rule with same source and destination")) ∧
    sameButCache st3 st := by
  have hf1 := stLookupOnline_frame env st cid
  have hf2 := stParseAddress_frame env st1 source p rev
  have hf3 := stParseAddress_frame env st2 dest p rev
  rw [hlk] at hf1
  rw [hsrc] at hf2
  rw [hdst] at hf3
  have hframe : sameButCache st3 st := by
    obtain ⟨a1, a2, a3, a4⟩ := hf1
    obtain ⟨b1, b2, b3, b4⟩ := hf2
    obtain ⟨c1, c2, c3, c4⟩ := hf3
    exact ⟨c1.trans (b1.trans a1), c2.trans (b2.trans a2),
           c3.trans (b3.trans a3), c4.trans (b4.trans a4)⟩
  have hkey : NewIptablesRule env st cid source sourcePort dest destPort proto filter rev =
      (if sr.1 = dr.1 then
        (st3, Except.error "Cannot add rule with same source and destination")
      else if sr.2 ≠ "." ∧ dr.2 ≠ "." then
        (st3, Except.error "Either source or destination must be the container itself")
      else
        (st3, Except.ok { Source := sr.1, SourceAlias := sr.2, SourcePort := sourcePort,
                          Destination := dr.1, DestinationAlias := dr.2,
                          DestinationPort := destPort, Protocol := proto,
                          Filter := filter })) := by
    simp only [NewIptablesRule, hlk, hsrc, hdst]
  refine ⟨?_, ?_, ?_, hframe⟩
  · intro hsame
    rw [hkey, if_pos hsame]
  · intro hs hd
    by_cases hsame : sr.1 = dr.1
    · exact ⟨_, by rw [hkey, if_pos hsame]⟩
    · exact ⟨_, by rw [hkey, if_neg hsame, if_pos ⟨hs, hd⟩]⟩
  · intro hS hD
    subst hS; subst hD
    have hs' : stParseAddress env st1 "." p rev =
        (st1, .ok ((st1.cache.deref p).ip ++ "/32", ".")) := by
      simp [stParseAddress, ParseAddress]
    rw [hs'] at hsrc
    simp only [Prod.mk.injEq, Except.ok.injEq] at hsrc
    obtain ⟨hst2, hsr⟩ := hsrc
    subst hst2
    have hd' : stParseAddress env st1 "." p rev =
        (st1, .ok ((st1.cache.deref p).ip ++ "/32", ".")) := hs'
    rw [hd'] at hdst
    simp only [Prod.mk.injEq, Except.ok.injEq] at hdst
    obtain ⟨hst3, hdr⟩ := hdst
    rw [hkey, if_pos]
    rw [← hsr, ← hdr]

/-- Witness for C5: `add` on `web` with source `.` and destination `.`
fails with the same-source-destination error. -/
theorem newIptablesRule_validation_witness :
    NewIptablesRule envW stW "web" "." 0 "." 0 "tcp" "" false =
      (stW, .error "Cannot add rule with same source and destination") :=
  (newIptablesRule_validation envW stW stW stW stW "web" "." "." 0 0 "tcp" "" false 0
      ("10.0.0.5" ++ "/32", ".") ("10.0.0.5" ++ "/32", ".") rfl rfl rfl).2.2.1 rfl rfl

/-- C4: counterexample on the code.  In `cacheC4` the short-id alias `abc`
refers to the identity of container `abcdef` (it maps to the record whose id
is `abcdef`).  `RefreshContainer` for `abcdef` succeeds and allocates the
freshly fetched record (pointer 1), yet afterwards `abc` still maps to the
stale pre-refresh record (pointer 0): the remap pass only rewrites the
canonical keys, so alias keys are left pointing at the stale descriptor. -/
theorem refreshContainer_stale_alias :
    (RefreshContainer envC4 cacheC4 "abcdef" true).2 = none ∧
    (cacheC4.deref 0).id = "abcdef" ∧
    mapGet cacheC4.containers "abc" = some 0 ∧
    mapGet (RefreshContainer envC4 cacheC4 "abcdef" true).1.containers "abcdef" = some 1 ∧
    mapGet (RefreshContainer envC4 cacheC4 "abcdef" true).1.containers "abc" = some 0 ∧
    (RefreshContainer envC4 cacheC4 "abcdef" true).1.deref 1 = c4new ∧
    (RefreshContainer envC4 cacheC4 "abcdef" true).1.deref 0 = c4old ∧
    c4old ≠ c4new :=
  ⟨rfl, rfl, rfl, rfl, rfl, rfl, rfl, by decide⟩

/-- C8: counterexample on the code.  The saved snapshot and the current host
configuration differ in the compared field `Links` (nil vs one link), yet
`BackupHostConfig` with `failOnChange = true` succeeds and overwrites the
snapshot: `areEquivalentArrays` tests `a == nil && a == nil`, so a nil saved
array is deemed equivalent to anything. -/
theorem backupHostConfig_misses_drift :
    cfgSaved.Links ≠ contC8.hostConfig.Links ∧
    asGoodAs cfgSaved contC8.hostConfig = true ∧
    (BackupHostConfig envC8 stC8 false true ["c1"]).2 = .ok () ∧
    (BackupHostConfig envC8 stC8 false true ["c1"]).1.hostConfigFiles "c1" =
      some contC8.hostConfig :=
  ⟨by decide, by decide, rfl, rfl⟩

/-- C10: when some container in the list has an empty persisted collection,
`DropRules` returns success right there: the result — state included — is the
same as if the list had ended at that container, so the containers after it
are never processed (no backend deletion, no file removal for them). -/
theorem dropRules_stops_at_empty (env : DockerEnv) (st st1 st2 : FwState)
    (pre rest : List String) (e : String) (p : Nat)
    (hpre : dropsAll env st pre st1)
    (hlk : stLookup env st1 e = (st2, .ok p))
    (hempty : LoadRules st2 (st2.cache.deref p).id = []) :
    DropRules env st (pre ++ e :: rest) = (st2, .ok ()) ∧
    DropRules env st (pre ++ e :: rest) = DropRules env st (pre ++ [e]) ∧
    sameButCache st2 st1 := by
  have hframe := stLookup_frame env st1 e
  rw [hlk] at hframe
  induction pre generalizing st
  case nil =>
    have hst : st1 = st := hpre
    subst hst
    have hdrop : dropOne env st1 e = (st2, .ok false) := by
      unfold dropOne
      rw [hlk]
      simp [hempty]
    refine ⟨?_, ?_, hframe⟩
    · show (match dropOne env st1 e with
        | (sx, Except.error err) => (sx, Except.error err)
        | (sx, Except.ok false) => (sx, Except.ok ())
        | (sx, Except.ok true) => DropRules env sx rest) = (st2, .ok ())
      rw [hdrop]
    · show (match dropOne env st1 e with
        | (sx, Except.error err) => (sx, Except.error err)
        | (sx, Except.ok false) => (sx, Except.ok ())
        | (sx, Except.ok true) => DropRules env sx rest) =
        (match dropOne env st1 e with
        | (sx, Except.error err) => (sx, Except.error err)
        | (sx, Except.ok false) => (sx, Except.ok ())
        | (sx, Except.ok true) => DropRules env sx [])
      rw [hdrop]
  case cons cid pre' ih =>
    obtain ⟨stm, h1, h2⟩ := hpre
    have e1 : DropRules env st ((cid :: pre') ++ e :: rest) =
        DropRules env stm (pre' ++ e :: rest) := by
      show (match dropOne env st cid with
        | (sx, Except.error err) => (sx, Except.error err)
        | (sx, Except.ok false) => (sx, Except.ok ())
        | (sx, Except.ok true) => DropRules env sx (pre' ++ e :: rest)) = _
      rw [h1]
    have e2 : DropRules env st ((cid :: pre') ++ [e]) =
        DropRules env stm (pre' ++ [e]) := by
      show (match dropOne env st cid with
        | (sx, Except.error err) => (sx, Except.error err)
        | (sx, Except.ok false) => (sx, Except.ok ())
        | (sx, Except.ok true) => DropRules env sx (pre' ++ [e])) = _
      rw [h1]
    obtain ⟨g1, g2, g3⟩ := ih stm h2
    exact ⟨by rw [e1]; exact g1, by rw [e1, e2]; exact g2.trans rfl, g3⟩

/-- Witness for C10: dropping `["one", "web", "zzz"]` — `web` has no rules,
`zzz` does not even exist — succeeds after `one`, leaving the world exactly
as after dropping `one` alone. -/
theorem dropRules_stops_at_empty_witness :
    DropRules envC10 stC10 ["one", "web", "zzz"] = (stC10a, .ok ()) ∧
    DropRules envC10 stC10 ["one", "web", "zzz"] = DropRules envC10 stC10 ["one", "web"] ∧
    sameButCache stC10a stC10a :=
  dropRules_stops_at_empty envC10 stC10 stC10a stC10a ["one"] ["zzz"] "web" 1
    ⟨stC10a, rfl, rfl⟩ rfl rfl

theorem isOctet_ne_empty {x : String} (h : isOctet x = true) : x ≠ "" := by
  intro hx
  subst hx
  exact absurd h (by decide)

theorem matchIpv4Groups_lastOctet {s : String} {g : String × String}
    (h : matchIpv4Groups s = some g) : isOctet g.1 = true := by
  unfold matchIpv4Groups at h
  split at h
  · split at h
    · split at h
      · rename_i hoct
        injection h with h'
        subst h'
        simp only [Bool.and_eq_true] at hoct
        exact hoct.2
      · exact absurd h (by simp)
    · exact absurd h (by simp)
  · split at h
    · split at h
      · rename_i hoct
        injection h with h'
        subst h'
        simp only [Bool.and_eq_true] at hoct
        exact hoct.1.2
      · exact absurd h (by simp)
    · exact absurd h (by simp)
  · exact absurd h (by simp)

theorem loadAll_sets_loadedAll {env : DockerEnv} {c c1 : Cache}
    (h : LoadAllContainers env c = (c1, none)) : c1.loadedAll = true := by
  unfold LoadAllContainers at h
  split at h
  · rename_i hl
    injection h with h1 h2
    subst h1
    exact hl
  · split at h
    · exact absurd (congrArg Prod.snd h) (by simp)
    · injection h with h1 h2
      subst h1
      rfl

/-- C7: an IPv4 literal inside the Docker bridge subnet that is CIDR-exact
(`/32`) is rejected by `ParseAddress` when reverse lookup is not allowed;
when it is allowed, a full cache population pass runs first and the call
either returns the literal address with the owning container's self-reduced
alias (when the network-address index of the populated cache maps the
address to a container) or fails (when it maps to none). -/
theorem parseAddress_bridge_literal (env : DockerEnv) (c : Cache)
    (spec : String) (self : Nat) (g : String × String)
    (hm : matchIpv4Groups spec = some g)
    (hdock : isDockerIPv4 spec = true)
    (hsuf : goHasSuf spec "/32" = true) :
    ParseAddress env c spec self false =
      (c, .error "trying to use Docker IPv4, use an alias instead") ∧
    (∀ c1 e, LoadAllContainers env c = (c1, some e) →
      ParseAddress env c spec self true = (c1, .error e)) ∧
    (∀ c1, LoadAllContainers env c = (c1, none) →
      (∀ p, mapGet c1.networkAddress (upToSlash spec) = some p →
        ParseAddress env c spec self true =
          (c1, .ok (spec, applySelfReduction c1 p self))) ∧
      (mapGet c1.networkAddress (upToSlash spec) = none →
        ParseAddress env c spec self true =
          (c1, .error ("address does not point to any container: " ++ upToSlash spec)))) := by
  have hdot : spec ≠ "." := by
    intro hx
    have h0 : matchIpv4Groups "." = none := by decide
    rw [hx, h0] at hm
    cases hm
  have hslash : spec ≠ "/" := by
    intro hx
    have h0 : matchIpv4Groups "/" = none := by decide
    rw [hx, h0] at hm
    cases hm
  have hg1 : ¬ (g.1 = "") := isOctet_ne_empty (matchIpv4Groups_lastOctet hm)
  have hcond : isDockerIPv4 spec ∧ goHasSuf spec "/32" := by
    rw [hdock, hsuf]; exact ⟨rfl, rfl⟩
  refine ⟨?_, ?_, ?_⟩
  · unfold ParseAddress
    rw [if_neg hdot, if_neg hslash, hm]
    simp only [hg1, if_false, if_neg hg1, if_pos hcond]
    rfl
  · intro c1 e hload
    unfold ParseAddress
    rw [if_neg hdot, if_neg hslash, hm]
    simp only [hg1, if_false, if_neg hg1, if_pos hcond, if_pos trivial]
    rw [hload]
  · intro c1 hload
    have hla : c1.loadedAll = true := loadAll_sets_loadedAll hload
    constructor
    · intro p hp
      unfold ParseAddress
      rw [if_neg hdot, if_neg hslash, hm]
      simp only [hg1, if_false, if_neg hg1, if_pos hcond, if_pos trivial]
      simp only [hload, FindContainerByNetworkAddress, hla, if_true, hp]
    · intro hp
      unfold ParseAddress
      rw [if_neg hdot, if_neg hslash, hm]
      simp only [hg1, if_false, if_neg hg1, if_pos hcond, if_pos trivial]
      simp only [hload, FindContainerByNetworkAddress, hla, if_true, hp]

/-- Witness for C7 at the literal `172.17.0.5/32`: rejected without reverse
lookup; resolved to the owning container (here `self`, so alias `.`) with it. -/
theorem parseAddress_bridge_literal_witness :
    ParseAddress envX cacheX "172.17.0.5/32" 0 false =
      (cacheX, .error "trying to use Docker IPv4, use an alias instead") ∧
    ParseAddress envX cacheX "172.17.0.5/32" 0 true =
      (cacheX, .ok ("172.17.0.5/32", applySelfReduction cacheX 0 0)) :=
  ⟨(parseAddress_bridge_literal envX cacheX "172.17.0.5/32" 0 ("5", "/32")
      (by decide) (by decide) (by decide)).1,
   ((parseAddress_bridge_literal envX cacheX "172.17.0.5/32" 0 ("5", "/32")
      (by decide) (by decide) (by decide)).2.2 cacheX rfl).1 0 rfl⟩

theorem cntN_nil (E : List (Nat × Nat)) (v : Nat) : cntN E [] v = 0 := by
  simp [cntN]

theorem inDeg_eq_degN (E : List (Nat × Nat)) (v : Nat) :
    inDeg E v = (degN E v : Int) := by
  unfold inDeg degN
  rw [List.countP_eq_length_filter]

theorem cntN_cons (e : Nat × Nat) (E : List (Nat × Nat)) (S : List Nat) (v : Nat) :
    cntN (e :: E) S v = cntN E S v + (if e.2 = v ∧ e.1 ∈ S then 1 else 0) := by
  simp only [cntN, List.countP_cons]
  by_cases h2 : e.2 = v <;> by_cases h1 : e.1 ∈ S <;> simp [h2, h1]

theorem degN_cons (e : Nat × Nat) (E : List (Nat × Nat)) (v : Nat) :
    degN (e :: E) v = degN E v + (if e.2 = v then 1 else 0) := by
  simp only [degN, List.countP_cons]
  by_cases h2 : e.2 = v <;> simp [h2]

theorem cntN_le_degN (E : List (Nat × Nat)) (S : List Nat) (v : Nat) :
    cntN E S v ≤ degN E v := by
  induction E with
  | nil => exact Nat.le_refl 0
  | cons e E ih =>
    rw [cntN_cons, degN_cons]
    by_cases h2 : e.2 = v <;> by_cases h1 : e.1 ∈ S <;> simp [h2, h1] <;> try omega

theorem cntN_eq_degN_iff (E : List (Nat × Nat)) (S : List Nat) (v : Nat) :
    cntN E S v = degN E v ↔ ∀ e ∈ E, e.2 = v → e.1 ∈ S := by
  induction E with
  | nil => simp [cntN, degN]
  | cons e E ih =>
    rw [cntN_cons, degN_cons]
    have hle := cntN_le_degN E S v
    by_cases h2 : e.2 = v
    · by_cases h1 : e.1 ∈ S
      · simp only [if_pos (And.intro h2 h1), if_pos h2]
        constructor
        · intro h x hx hx2
          rcases List.mem_cons.mp hx with hh | hx'
          · subst hh; exact h1
          · exact ih.mp (by omega) x hx' hx2
        · intro h
          have := ih.mpr (fun x hx hx2 => h x (List.mem_cons_of_mem e hx) hx2)
          omega
      · simp only [if_neg (fun hc : e.2 = v ∧ e.1 ∈ S => h1 hc.2), if_pos h2]
        constructor
        · intro h; exfalso; omega
        · intro h; exact absurd (h e (List.mem_cons_self e E) h2) h1
    · simp only [if_neg (fun hc : e.2 = v ∧ e.1 ∈ S => h2 hc.1), if_neg h2]
      constructor
      · intro h x hx hx2
        rcases List.mem_cons.mp hx with hh | hx'
        · subst hh; exact absurd hx2 h2
        · exact ih.mp (by omega) x hx' hx2
      · intro h
        exact ih.mpr (fun x hx hx2 => h x (List.mem_cons_of_mem e hx) hx2)

theorem cntN_append_one (E : List (Nat × Nat)) (S : List Nat) (n v : Nat)
    (hn : n ∉ S) :
    cntN E (S ++ [n]) v = cntN E S v + chCount E n v := by
  induction E with
  | nil => rfl
  | cons e E ih =>
    rw [cntN_cons, cntN_cons]
    have hch : chCount (e :: E) n v =
        chCount E n v + (if e.1 = n ∧ e.2 = v then 1 else 0) := by
      simp only [chCount, List.countP_cons]
      by_cases ha : e.1 = n <;> by_cases hb : e.2 = v <;> simp [ha, hb]
    rw [hch]
    have hmem : e.1 ∈ S ++ [n] ↔ e.1 ∈ S ∨ e.1 = n := by
      simp [List.mem_append]
    by_cases h2 : e.2 = v <;> by_cases h1 : e.1 ∈ S <;> by_cases h3 : e.1 = n
    · exact absurd (h3 ▸ h1) hn
    · simp only [if_pos (And.intro h2 (hmem.mpr (Or.inl h1))),
        if_pos (And.intro h2 h1), if_neg (fun hc : e.1 = n ∧ e.2 = v => h3 hc.1)]
      omega
    · simp only [if_pos (And.intro h2 (hmem.mpr (Or.inr h3))),
        if_neg (fun hc : e.2 = v ∧ e.1 ∈ S => h1 hc.2),
        if_pos (And.intro h3 h2)]
      omega
    · simp only [if_neg (fun hc : e.2 = v ∧ e.1 ∈ S ++ [n] =>
          (hmem.mp hc.2).elim h1 h3),
        if_neg (fun hc : e.2 = v ∧ e.1 ∈ S => h1 hc.2),
        if_neg (fun hc : e.1 = n ∧ e.2 = v => h3 hc.1)]
      omega
    · exact absurd (h3 ▸ h1) hn
    · simp only [if_neg (fun hc : e.2 = v ∧ e.1 ∈ S ++ [n] => h2 hc.1),
        if_neg (fun hc : e.2 = v ∧ e.1 ∈ S => h2 hc.1),
        if_neg (fun hc : e.1 = n ∧ e.2 = v => h2 hc.2)]
      omega
    · simp only [if_neg (fun hc : e.2 = v ∧ e.1 ∈ S ++ [n] => h2 hc.1),
        if_neg (fun hc : e.2 = v ∧ e.1 ∈ S => h2 hc.1),
        if_neg (fun hc : e.1 = n ∧ e.2 = v => h2 hc.2)]
      omega
    · simp only [if_neg (fun hc : e.2 = v ∧ e.1 ∈ S ++ [n] => h2 hc.1),
        if_neg (fun hc : e.2 = v ∧ e.1 ∈ S => h2 hc.1),
        if_neg (fun hc : e.1 = n ∧ e.2 = v => h2 hc.2)]
      omega

theorem decChildren_fst (cs : List Nat) (ing : Nat → Int) :
    (decChildren cs ing).1 = fun v => ing v - (cs.count v : Int) := by
  induction cs generalizing ing with
  | nil => funext v; simp [decChildren]
  | cons c cs ih =>
    show (decChildren cs (fun v => if v = c then ing v - 1 else ing v)).1 = _
    rw [ih]
    funext v
    by_cases hv : v = c
    · subst hv
      simp [List.count_cons_self]
      ring
    · simp [hv, List.count_cons_of_ne hv]

theorem decChildren_snd_cons (c : Nat) (cs : List Nat) (ing : Nat → Int) :
    (decChildren (c :: cs) ing).2 =
      (if ing c - 1 = 0 then
        c :: (decChildren cs fun v => if v = c then ing v - 1 else ing v).2
      else (decChildren cs fun v => if v = c then ing v - 1 else ing v).2) := by
  show (if (if c = c then ing c - 1 else ing c) = 0 then _ else _) = _
  rw [if_pos rfl]

theorem decChildren_mem (cs : List Nat) (ing : Nat → Int) (x : Nat) :
    x ∈ (decChildren cs ing).2 ↔ 1 ≤ ing x ∧ ing x ≤ (cs.count x : Int) := by
  induction cs generalizing ing with
  | nil =>
    simp only [decChildren, List.not_mem_nil, false_iff, List.count_nil]
    intro h
    omega
  | cons c cs ih =>
    rw [decChildren_snd_cons]
    have hihx := ih (fun v => if v = c then ing v - 1 else ing v)
    by_cases hx : x = c
    · subst hx
      have h1 : (if x = x then ing x - 1 else ing x) = ing x - 1 := if_pos rfl
      rw [h1] at hihx
      rw [List.count_cons_self]
      by_cases h0 : ing x - 1 = 0
      · rw [if_pos h0]
        simp only [List.mem_cons, true_or, true_iff]
        have hc : (0 : Int) ≤ (cs.count x : Int) := Int.natCast_nonneg _
        omega
      · rw [if_neg h0, hihx]
        push_cast
        omega
    · have h1 : (if x = c then ing x - 1 else ing x) = ing x := if_neg hx
      rw [h1] at hihx
      rw [List.count_cons_of_ne hx]
      by_cases h0 : ing c - 1 = 0
      · rw [if_pos h0, List.mem_cons, hihx]
        simp [hx]
      · rw [if_neg h0, hihx]

theorem decChildren_nodup (cs : List Nat) (ing : Nat → Int) :
    (decChildren cs ing).2.Nodup := by
  induction cs generalizing ing with
  | nil => exact List.nodup_nil
  | cons c cs ih =>
    rw [decChildren_snd_cons]
    by_cases h0 : ing c - 1 = 0
    · rw [if_pos h0]
      refine List.nodup_cons.mpr ⟨?_, ih _⟩
      intro hcmem
      rw [decChildren_mem] at hcmem
      rw [show (if c = c then ing c - 1 else ing c) = ing c - 1 from if_pos rfl] at hcmem
      omega
    · rw [if_neg h0]
      exact ih _

theorem decChildren_sub (cs : List Nat) (ing : Nat → Int) (x : Nat)
    (hx : x ∈ (decChildren cs ing).2) : x ∈ cs := by
  rw [decChildren_mem] at hx
  by_contra hmem
  rw [List.count_eq_zero_of_not_mem hmem] at hx
  simp at hx
  omega

theorem childrenOf_count (E : List (Nat × Nat)) (n v : Nat) :
    (childrenOf E n).count v = chCount E n v := by
  induction E with
  | nil => rfl
  | cons e E ih =>
    simp only [childrenOf, chCount, List.filter_cons, List.countP_cons] at ih ⊢
    by_cases h1 : e.1 = n <;> by_cases h2 : e.2 = v <;>
      simp [h1, h2, List.count_cons] <;> omega

theorem childrenOf_mem_edge (E : List (Nat × Nat)) (n x : Nat)
    (hx : x ∈ childrenOf E n) : (n, x) ∈ E := by
  unfold childrenOf at hx
  obtain ⟨e, he, hex⟩ := List.mem_map.mp hx
  have hmem := List.mem_filter.mp he
  have h1 : e.1 = n := by simpa using hmem.2
  have : e = (n, x) := by
    cases e
    simp only [Prod.mk.injEq]
    exact ⟨h1, hex⟩
  rw [← this]
  exact hmem.1

theorem reaches_trans {E : List (Nat × Nat)} {a b c : Nat}
    (h1 : Reaches E a b) (h2 : Reaches E b c) : Reaches E a c := by
  induction h1 with
  | single h => exact Reaches.cons h h2
  | cons h _ ih => exact Reaches.cons h (ih h2)

theorem reaches_last {E : List (Nat × Nat)} {a b : Nat} (h : Reaches E a b) :
    ∃ u, (u, b) ∈ E ∧ (u = a ∨ Reaches E a u) := by
  induction h with
  | single h => exact ⟨_, h, Or.inl rfl⟩
  | cons h hw ih =>
    obtain ⟨u, hu, hcase⟩ := ih
    refine ⟨u, hu, Or.inr ?_⟩
    rcases hcase with rfl | hr
    · exact Reaches.single h
    · exact Reaches.cons h hr

theorem acc_no_cycle {E : List (Nat × Nat)} {v : Nat}
    (h : Acc (fun a b => (a, b) ∈ E) v) : ¬ Reaches E v v := by
  induction h with
  | intro x hx ih =>
    intro hcyc
    obtain ⟨u, hu, hcase⟩ := reaches_last hcyc
    rcases hcase with rfl | hr
    · exact ih u hu hcyc
    · exact ih u hu (reaches_trans (Reaches.single hu) hr)

theorem acyclic_acc {E : List (Nat × Nat)} (hA : AcyclicEdges E) :
    ∀ v, Acc (fun a b => (a, b) ∈ E) v := by
  classical
  have hfin : ∀ v, Set.Finite {u | Reaches E u v} := by
    intro v
    apply Set.Finite.subset (List.finite_toSet (E.map Prod.fst))
    intro u hu
    obtain ⟨w, hw⟩ : ∃ w, (u, w) ∈ E := by
      cases hu with
      | single h => exact ⟨_, h⟩
      | cons h _ => exact ⟨_, h⟩
    exact List.mem_map.mpr ⟨(u, w), hw, rfl⟩
  have key : ∀ k v, ({u | Reaches E u v}).ncard < k →
      Acc (fun a b => (a, b) ∈ E) v := by
    intro k
    induction k with
    | zero => intro v hv; omega
    | succ k ih =>
      intro v hv
      constructor
      intro u hu
      apply ih
      have hsub : {w | Reaches E w u} ⊂ {w | Reaches E w v} := by
        rw [Set.ssubset_def]
        constructor
        · intro w hw
          exact reaches_trans hw (Reaches.single hu)
        · intro hcontra
          have hu' : u ∈ {w | Reaches E w v} := Reaches.single hu
          exact hA u (hcontra hu')
      have := Set.ncard_lt_ncard hsub (hfin v)
      omega
  intro v
  exact key _ v (Nat.lt_succ_self _)

theorem kpost_of_empty (V : List Nat) (E : List (Nat × Nat)) (fuel : Nat)
    (ing : Nat → Int) (sorted : List Nat)
    (hinv : KInv V E fuel ing [] sorted) : KPost V E sorted := by
  obtain ⟨h1, h2, h3, h4, h5, h6, h7⟩ := hinv
  simp only [List.append_nil] at h1 h2 h4 h6
  refine ⟨h1, h2, h5, h6, ?_⟩
  intro v hv hpred
  have hcnt : cntN E sorted v = degN E v := by
    refine (cntN_eq_degN_iff E sorted v).mpr ?_
    intro e he he2
    refine hpred e.1 ?_
    rw [← he2, Prod.mk.eta]
    exact he
  have h3v := h3 v
  rw [hcnt] at h3v
  exact (h4 v hv).mpr (by omega)

theorem kinv_step (V : List Nat) (E : List (Nat × Nat))
    (hE : ∀ e ∈ E, e.1 ∈ V ∧ e.2 ∈ V)
    (fuel : Nat) (ing : Nat → Int) (n : Nat) (rest sorted : List Nat)
    (hinv : KInv V E (fuel + 1) ing (n :: rest) sorted) :
    KInv V E fuel (decChildren (childrenOf E n) ing).1
      (rest ++ (decChildren (childrenOf E n) ing).2) (sorted ++ [n]) := by
  obtain ⟨h1, h2, h3, h4, h5, h6, h7⟩ := hinv
  have f0 : ∀ v, (decChildren (childrenOf E n) ing).1 v =
      ing v - ((childrenOf E n).count v : Int) := by
    intro v
    rw [decChildren_fst]
  have f1 : ∀ x, x ∈ (decChildren (childrenOf E n) ing).2 ↔
      1 ≤ ing x ∧ ing x ≤ ((childrenOf E n).count x : Int) :=
    decChildren_mem (childrenOf E n) ing
  have f2 : (decChildren (childrenOf E n) ing).2.Nodup :=
    decChildren_nodup (childrenOf E n) ing
  have f3 : ∀ x ∈ (decChildren (childrenOf E n) ing).2, x ∈ childrenOf E n :=
    fun x hx => decChildren_sub (childrenOf E n) ing x hx
  have fch : ∀ v, (childrenOf E n).count v = chCount E n v :=
    fun v => childrenOf_count E n v
  have fchV : ∀ x ∈ childrenOf E n, x ∈ V :=
    fun x hx => (hE _ (childrenOf_mem_edge E n x hx)).2
  have hnS : n ∉ sorted := by
    intro hns
    exact (List.nodup_append.mp h1).2.2 hns (List.mem_cons_self _ _)
  have hmemEq : (sorted ++ [n]) ++ (rest ++ (decChildren (childrenOf E n) ing).2) =
      (sorted ++ n :: rest) ++ (decChildren (childrenOf E n) ing).2 := by
    simp [List.append_assoc]
  have fnew : ∀ x ∈ (decChildren (childrenOf E n) ing).2, x ∉ sorted ++ n :: rest := by
    intro x hx hmem
    have hxV : x ∈ V := fchV x (f3 x hx)
    have hle : ing x ≤ 0 := (h4 x hxV).mp hmem
    have := (f1 x).mp hx
    omega
  refine ⟨?_, ?_, ?_, ?_, ?_, ?_, ?_⟩
  · rw [hmemEq, List.nodup_append]
    exact ⟨h1, f2, fun x hx hx2 => fnew x hx2 hx⟩
  · intro x hx
    rw [hmemEq] at hx
    rcases List.mem_append.mp hx with ho | hn2
    · exact h2 x ho
    · exact fchV x (f3 x hn2)
  · intro v
    rw [f0 v, cntN_append_one E sorted n v hnS]
    have h3v := h3 v
    have hfch := fch v
    push_cast
    omega
  · intro v hv
    rw [hmemEq, f0 v]
    by_cases hvold : v ∈ sorted ++ n :: rest
    · have hle : ing v ≤ 0 := (h4 v hv).mp hvold
      have hc : (0 : Int) ≤ ((childrenOf E n).count v : Int) := Int.natCast_nonneg _
      constructor
      · intro _
        omega
      · intro _
        exact List.mem_append.mpr (Or.inl hvold)
    · have hgt : ¬ ing v ≤ 0 := fun hc => hvold ((h4 v hv).mpr hc)
      constructor
      · intro hmem
        rcases List.mem_append.mp hmem with ho | hn2
        · exact absurd ho hvold
        · have := (f1 v).mp hn2
          omega
      · intro hle
        refine List.mem_append.mpr (Or.inr ((f1 v).mpr ?_))
        omega
  · intro u v huv hv
    rcases List.mem_append.mp hv with hvs | hvn
    · obtain ⟨hu, hidx⟩ := h5 u v huv hvs
      refine ⟨List.mem_append.mpr (Or.inl hu), ?_⟩
      rw [List.indexOf_append_of_mem hu, List.indexOf_append_of_mem hvs]
      exact hidx
    · have hvn' : v = n := by simpa using hvn
      subst hvn'
      have hvV : v ∈ V :=
        h2 v (List.mem_append.mpr (Or.inr (List.mem_cons_self _ _)))
      have hle : ing v ≤ 0 :=
        (h4 v hvV).mp (List.mem_append.mpr (Or.inr (List.mem_cons_self _ _)))
      have hcnt : cntN E sorted v = degN E v := by
        have h3v := h3 v
        have hled := cntN_le_degN E sorted v
        omega
      have hu : u ∈ sorted :=
        (cntN_eq_degN_iff E sorted v).mp hcnt (u, v) huv rfl
      refine ⟨List.mem_append.mpr (Or.inl hu), ?_⟩
      rw [List.indexOf_append_of_mem hu, List.indexOf_append_of_not_mem hnS]
      have hlt := List.indexOf_lt_length.mpr hu
      simp only [List.indexOf_cons_self]
      omega
  · intro x hx
    rw [hmemEq] at hx
    rcases List.mem_append.mp hx with ho | hn2
    · exact h6 x ho
    · have hxmem := (f1 x).mp hn2
      have hcnt : cntN E (sorted ++ [n]) x = degN E x := by
        have h3x := h3 x
        have hfch := fch x
        have hstep := cntN_append_one E sorted n x hnS
        have hled := cntN_le_degN E (sorted ++ [n]) x
        omega
      have hpreds := (cntN_eq_degN_iff E (sorted ++ [n]) x).mp hcnt
      constructor
      intro y hy
      have hys : y ∈ sorted ++ [n] := hpreds (y, x) hy rfl
      rcases List.mem_append.mp hys with hy1 | hy2
      · exact h6 y (List.mem_append.mpr (Or.inl hy1))
      · have hyn : y = n := by simpa using hy2
        subst hyn
        exact h6 y (List.mem_append.mpr (Or.inr (List.mem_cons_self _ _)))
  · rw [List.length_append]
    simp only [List.length_singleton]
    omega

theorem kahnLoop_post (V : List Nat) (E : List (Nat × Nat))
    (hE : ∀ e ∈ E, e.1 ∈ V ∧ e.2 ∈ V) :
    ∀ fuel ing zero sorted, KInv V E fuel ing zero sorted →
      KPost V E (kahnLoop (childrenOf E) fuel ing zero sorted) := by
  intro fuel
  induction fuel with
  | zero =>
    intro ing zero sorted hinv
    have hzero : zero = [] := by
      obtain ⟨h1, h2, h3, h4, h5, h6, h7⟩ := hinv
      have hsp : (sorted ++ zero).Subperm V :=
        h1.subperm (fun x hx => h2 x hx)
      have hlen := hsp.length_le
      rw [List.length_append] at hlen
      have : zero.length = 0 := by omega
      exact List.length_eq_zero.mp this
    subst hzero
    exact kpost_of_empty V E 0 ing sorted hinv
  | succ fuel ih =>
    intro ing zero sorted hinv
    cases zero with
    | nil =>
      show KPost V E sorted
      exact kpost_of_empty V E (fuel + 1) ing sorted hinv
    | cons n rest =>
      show KPost V E (kahnLoop (childrenOf E) fuel
        (decChildren (childrenOf E n) ing).1
        (rest ++ (decChildren (childrenOf E n) ing).2) (sorted ++ [n]))
      exact ih _ _ _ (kinv_step V E hE fuel ing n rest sorted hinv)

theorem kinv_init (V : List Nat) (E : List (Nat × Nat)) (hV : V.Nodup) :
    KInv V E (V.length + E.length) (inDeg E)
      (V.filter (fun v => inDeg E v = 0)) [] := by
  refine ⟨?_, ?_, ?_, ?_, ?_, ?_, ?_⟩
  · simp only [List.nil_append]
    exact hV.filter _
  · intro x hx
    simp only [List.nil_append] at hx
    exact (List.mem_filter.mp hx).1
  · intro v
    rw [inDeg_eq_degN, cntN_nil]
    omega
  · intro v hv
    simp only [List.nil_append, List.mem_filter]
    have hcast := inDeg_eq_degN E v
    constructor
    · rintro ⟨_, hz⟩
      simp only [decide_eq_true_eq] at hz
      omega
    · intro hle
      refine ⟨hv, ?_⟩
      simp only [decide_eq_true_eq]
      omega
  · intro u v huv hv
    exact absurd hv (List.not_mem_nil v)
  · intro x hx
    simp only [List.nil_append, List.mem_filter, decide_eq_true_eq] at hx
    constructor
    intro y hy
    exfalso
    have hpos : 0 < degN E x := by
      unfold degN
      refine List.countP_pos_iff.mpr ⟨(y, x), hy, by simp⟩
    have hcast := inDeg_eq_degN E x
    have hz := hx.2
    omega
  · simp only [List.length_nil]
    omega

/-- C3: with the node set and `LinkTo` edge set well formed (distinct nodes,
edges between nodes), `TopSort` on an acyclic graph returns a permutation of
the nodes in which every node comes after all nodes with an edge pointing to
it; on a graph with a cycle, the Kahn loop produces an output shorter than
the node count and `TopSort` ends in the fatal cycle panic. -/
theorem topSort_correct (V : List Nat) (E : List (Nat × Nat))
    (hV : V.Nodup) (hE : ∀ e ∈ E, e.1 ∈ V ∧ e.2 ∈ V) :
    (AcyclicEdges E →
      TopSort V E = .ok (TopSortRaw V E) ∧ (TopSortRaw V E).Perm V ∧
      ∀ u v, (u, v) ∈ E →
        (TopSortRaw V E).indexOf u < (TopSortRaw V E).indexOf v) ∧
    (¬ AcyclicEdges E →
      (TopSortRaw V E).length < V.length ∧
      TopSort V E = .error "panic: found cycle in DAG") := by
  have hpost : KPost V E (TopSortRaw V E) := by
    show KPost V E (kahnLoop (childrenOf E) (V.length + E.length) (inDeg E)
      (V.filter (fun v => inDeg E v = 0)) [])
    exact kahnLoop_post V E hE _ _ _ _ (kinv_init V E hV)
  obtain ⟨p1, p2, p3, p4, p5⟩ := hpost
  constructor
  · intro hA
    have hsub : ∀ v ∈ V, v ∈ TopSortRaw V E := by
      have hAcc := acyclic_acc hA
      have main : ∀ v, Acc (fun a b => (a, b) ∈ E) v → v ∈ V →
          v ∈ TopSortRaw V E := by
        intro v hacc
        induction hacc with
        | intro x hx ih =>
          intro hxV
          refine p5 x hxV ?_
          intro u hu
          exact ih u hu (hE (u, x) hu).1
      intro v hv
      exact main v (hAcc v) hv
    have hperm : (TopSortRaw V E).Perm V := by
      rw [List.perm_ext_iff_of_nodup p1 hV]
      intro a
      exact ⟨fun h => p2 a h, fun h => hsub a h⟩
    have hlen := hperm.length_eq
    refine ⟨?_, hperm, ?_⟩
    · show (if (TopSortRaw V E).length < V.length then
          Except.error "panic: found cycle in DAG"
        else Except.ok (TopSortRaw V E)) = Except.ok (TopSortRaw V E)
      rw [if_neg (by rw [hlen]; exact Nat.lt_irrefl _)]
    · intro u v huv
      exact (p3 u v huv (hsub v (hE (u, v) huv).2)).2
  · intro hA
    have hcyc : ∃ v, Reaches E v v := by
      unfold AcyclicEdges at hA
      push_neg at hA
      exact hA
    obtain ⟨v, hv⟩ := hcyc
    have hvV : v ∈ V := by
      cases hv with
      | single h => exact (hE _ h).1
      | cons h _ => exact (hE _ h).1
    have hvnot : v ∉ TopSortRaw V E := fun hmem => acc_no_cycle (p4 v hmem) hv
    have hsp : (TopSortRaw V E).Subperm V := p1.subperm (fun x hx => p2 x hx)
    have hlt : (TopSortRaw V E).length < V.length := by
      rcases Nat.lt_or_ge (TopSortRaw V E).length V.length with h | h
      · exact h
      · exact absurd ((hsp.perm_of_length_le h).mem_iff.mpr hvV) hvnot
    refine ⟨hlt, ?_⟩
    show (if (TopSortRaw V E).length < V.length then
        Except.error "panic: found cycle in DAG"
      else Except.ok (TopSortRaw V E)) = Except.error "panic: found cycle in DAG"
    rw [if_pos hlt]

/-- Witness for C3 on the chain `0 → 1 → 2`. -/
theorem topSort_correct_witness :
    TopSort [0, 1, 2] [(0, 1), (1, 2)] =
      .ok (TopSortRaw [0, 1, 2] [(0, 1), (1, 2)]) ∧
    (TopSortRaw [0, 1, 2] [(0, 1), (1, 2)]).Perm [0, 1, 2] ∧
    ∀ u v, (u, v) ∈ [(0, 1), (1, 2)] →
      (TopSortRaw [0, 1, 2] [(0, 1), (1, 2)]).indexOf u <
        (TopSortRaw [0, 1, 2] [(0, 1), (1, 2)]).indexOf v :=
  (topSort_correct [0, 1, 2] [(0, 1), (1, 2)] (by decide) (by decide)).1
    (by
      have mono : ∀ u v : Nat, Reaches [(0, 1), (1, 2)] u v → u < v := by
        intro u v h
        induction h with
        | single h =>
          simp only [List.mem_cons, List.mem_singleton, Prod.mk.injEq] at h
          rcases h with ⟨rfl, rfl⟩ | ⟨rfl, rfl⟩ | hfalse
          · omega
          · omega
          · simp at hfalse
        | cons h _ ih =>
          simp only [List.mem_cons, List.mem_singleton, Prod.mk.injEq] at h
          rcases h with ⟨rfl, rfl⟩ | ⟨rfl, rfl⟩ | hfalse
          · omega
          · omega
          · simp at hfalse
      exact fun v hv => absurd (mono v v hv) (Nat.lt_irrefl v))

theorem format_data (r : ActiveIptablesRule) :
    (r.Format).data =
      r.Chain.data ++ ' ' :: '-' :: 's' :: ' ' ::
        (r.Source.data ++ ' ' :: '-' :: 'd' :: ' ' ::
          (r.Destination.data ++ ' ' :: formatTail r)) := by
  simp only [ActiveIptablesRule.Format, IptablesRule.Format, formatTail,
    String.data_append, List.append_assoc]
  rfl

theorem space_cancel : ∀ (a b x y : List Char),
    (∀ c ∈ a, c ≠ ' ') → (∀ c ∈ b, c ≠ ' ') →
    a ++ ' ' :: x = b ++ ' ' :: y → a = b ∧ x = y := by
  intro a
  induction a with
  | nil =>
    intro b x y _ hb h
    cases b with
    | nil =>
      simp only [List.nil_append] at h
      injection h with _ h2
      exact ⟨rfl, h2⟩
    | cons d b' =>
      simp only [List.nil_append, List.cons_append] at h
      injection h with h1 _
      exact absurd h1.symm (hb d (List.mem_cons_self d b'))
  | cons c a' ih =>
    intro b x y ha hb h
    cases b with
    | nil =>
      simp only [List.nil_append, List.cons_append] at h
      injection h with h1 _
      exact absurd h1 (ha c (List.mem_cons_self c a'))
    | cons d b' =>
      simp only [List.cons_append] at h
      injection h with h1 h2
      obtain ⟨he, hxy⟩ := ih b' x y
        (fun z hz => ha z (List.mem_cons_of_mem c hz))
        (fun z hz => hb z (List.mem_cons_of_mem d hz)) h2
      subst h1
      rw [he]
      exact ⟨rfl, hxy⟩

/-- Two canonical rule texts that differ only in space-free endpoint
addresses are equal only when the addresses coincide. -/
theorem format_inj (r : ActiveIptablesRule) (S D : String)
    (hS : noSpace r.Source) (hD : noSpace r.Destination)
    (hS' : noSpace S) (hD' : noSpace D)
    (h : ActiveIptablesRule.Format
        { r with Source := S, Destination := D } = r.Format) :
    S = r.Source ∧ D = r.Destination := by
  have hd := congrArg String.data h
  rw [format_data, format_data] at hd
  simp only at hd
  have hd2 := List.append_cancel_left hd
  injection hd2 with _ hd2
  injection hd2 with _ hd2
  injection hd2 with _ hd2
  injection hd2 with _ hd2
  obtain ⟨hSeq, hd3⟩ := space_cancel _ _ _ _ hS' hS hd2
  injection hd3 with _ hd3
  injection hd3 with _ hd3
  injection hd3 with _ hd3
  obtain ⟨hDeq, _⟩ := space_cancel _ _ _ _ hD' hD hd3
  exact ⟨String.ext hSeq, String.ext hDeq⟩

theorem noSpace_append {a b : String} (ha : noSpace a) (hb : noSpace b) :
    noSpace (a ++ b) := by
  intro c hc
  rw [String.data_append] at hc
  rcases List.mem_append.mp hc with h | h
  · exact ha c h
  · exact hb c h

theorem deref_noSpace {c : Cache} (hh : heapWf c) (p : Nat) :
    noSpace (c.deref p).ip := by
  unfold Cache.deref
  rcases h : c.heap[p]? with _ | cont
  · rw [List.getD_eq_getElem?_getD, h]
    intro x hx
    simp [dummyContainer] at hx
  · rw [List.getD_eq_getElem?_getD, h]
    exact hh cont (List.getElem?_mem h)

theorem fullRefresh_heapWf {env : DockerEnv} {c c1 : Cache} {id : String}
    {b : Bool} {res : Option String}
    (h : fullRefreshContainer env c id b = (c1, res))
    (he : envWf env) (hh : heapWf c) : heapWf c1 := by
  unfold fullRefreshContainer at h
  rcases hi : env.inspect id with _ | cont
  · rw [hi] at h
    injection h with h1 _
    subst h1
    exact hh
  · rw [hi] at h
    simp only at h
    have hcont : noSpace cont.ip := he id cont hi
    have hext : heapWf { c with heap := c.heap ++ [cont] } := by
      intro x hx
      rcases List.mem_append.mp hx with hx1 | hx2
      · exact hh x hx1
      · rw [List.mem_singleton.mp hx2]
        exact hcont
    split at h
    · split at h
      · injection h with h1 _
        subst h1
        intro x hx
        exact hext x hx
      · injection h with h1 _
        subst h1
        intro x hx
        exact hext x hx
    · injection h with h1 _
      subst h1
      intro x hx
      exact hext x hx

theorem lookupInternal_heapWf {env : DockerEnv} {c c1 : Cache} {cid : String}
    {b : Bool} {res : Except String Nat}
    (h : lookupInternal env c cid b = (c1, res))
    (he : envWf env) (hh : heapWf c) : heapWf c1 := by
  unfold lookupInternal at h
  split at h
  · injection h with h1 _
    subst h1
    exact hh
  · split at h
    · split at h
      · injection h with h1 _
        subst h1
        exact hh
      · rcases hf : fullRefreshContainer env c cid b with ⟨cf, rf⟩
        rw [hf] at h
        have hwf := fullRefresh_heapWf hf he hh
        rcases rf with _ | e
        · dsimp only at h
          split at h <;> (injection h with h1 _; subst h1; exact hwf)
        · dsimp only at h
          injection h with h1 _
          subst h1
          exact hwf
    · split at h <;> (injection h with h1 _; subst h1; exact hh)

theorem dockerHost_noSpace : noSpace DOCKER_HOST := by decide

theorem slash32_noSpace : noSpace "/32" := by decide

theorem parseAddress_wf {env : DockerEnv} {c c1 : Cache} {a : String}
    {self : Nat} {res : Except String (String × String)}
    (h : ParseAddress env c a self false = (c1, res))
    (he : envWf env) (hh : heapWf c) :
    heapWf c1 ∧ ∀ v al, res = .ok (v, al) → noSpace a → noSpace v := by
  unfold ParseAddress at h
  split at h
  · injection h with h1 h2
    subst h1
    refine ⟨hh, ?_⟩
    intro v al hres _
    rw [← h2] at hres
    injection hres with hres
    injection hres with hv _
    rw [← hv]
    exact noSpace_append (deref_noSpace hh self) slash32_noSpace
  · split at h
    · injection h with h1 h2
      subst h1
      refine ⟨hh, ?_⟩
      intro v al hres _
      rw [← h2] at hres
      injection hres with hres
      injection hres with hv _
      rw [← hv]
      exact dockerHost_noSpace
    · split at h
      · split at h
        · split at h
          · rename_i hff
            exact absurd hff (by decide)
          · dsimp only at h
            split at h
            · injection h with h1 h2
              subst h1
              exact ⟨hh, fun v al hres _ => by rw [← h2] at hres; cases hres⟩
            · injection h with h1 h2
              subst h1
              refine ⟨hh, ?_⟩
              intro v al hres hna
              rw [← h2] at hres
              injection hres with hres
              injection hres with hv _
              rw [← hv]
              exact noSpace_append hna slash32_noSpace
        · split at h
          · rename_i hff
            exact absurd hff (by decide)
          · dsimp only at h
            split at h
            · injection h with h1 h2
              subst h1
              exact ⟨hh, fun v al hres _ => by rw [← h2] at hres; cases hres⟩
            · injection h with h1 h2
              subst h1
              refine ⟨hh, ?_⟩
              intro v al hres hna
              rw [← h2] at hres
              injection hres with hres
              injection hres with hv _
              rw [← hv]
              exact hna
      · rcases hl : lookupInternal env c a true with ⟨cl, rl⟩
        rw [hl] at h
        have hwf := lookupInternal_heapWf hl he hh
        rcases rl with e | p
        · dsimp only at h
          injection h with h1 h2
          subst h1
          exact ⟨hwf, fun v al hres _ => by rw [← h2] at hres; cases hres⟩
        · dsimp only at h
          injection h with h1 h2
          subst h1
          refine ⟨hwf, ?_⟩
          intro v al hres _
          rw [← h2] at hres
          injection hres with hres
          injection hres with hv _
          rw [← hv]
          exact noSpace_append (deref_noSpace hwf p) slash32_noSpace

theorem stParseAddress_eq (env : DockerEnv) (st : FwState) (a : String)
    (self : Nat) (names : Bool) :
    ParseAddress env st.cache a self names =
      ((stParseAddress env st a self names).1.cache,
        (stParseAddress env st a self names).2) := rfl

theorem dealias_spec {env : DockerEnv} {st st' : FwState} {self : Nat}
    {a stored v : String} {ch : Bool}
    (h : dealiasEndpoint env st self a stored = (st', .ok (v, ch)))
    (he : envWf env) (hh : heapWf st.cache) :
    sameButCache st' st ∧ heapWf st'.cache ∧
    (ch = false → v = stored) ∧ (ch = true → v ≠ stored) ∧
    (noSpace a → noSpace stored → noSpace v) := by
  unfold dealiasEndpoint at h
  split at h
  · rcases hp : stParseAddress env st a self false with ⟨st1, rp⟩
    rw [hp] at h
    have hframe := stParseAddress_frame env st a self false
    rw [hp] at hframe
    have hwf := parseAddress_wf (stParseAddress_eq env st a self false) he hh
    rw [hp] at hwf
    rcases rp with e | resv
    · dsimp only at h
      injection h with h1 h2
      exact Except.noConfusion h2
    · dsimp only at h
      split at h
      · injection h with h1 h2
        subst h1
        injection h2 with h2
        injection h2 with hv hch
        subst hv
        subst hch
        rename_i hne
        refine ⟨hframe, hwf.1, ?_, ?_, ?_⟩
        · intro hfalse
          cases hfalse
        · intro _
          exact fun hx => hne (hx.symm)
        · intro hna _
          exact hwf.2 resv.1 resv.2 rfl hna
      · injection h with h1 h2
        subst h1
        injection h2 with h2
        injection h2 with hv hch
        subst hv
        subst hch
        exact ⟨hframe, hwf.1, fun _ => rfl, fun hx => absurd hx (by decide), fun _ hns => hns⟩
  · injection h with h1 h2
    subst h1
    injection h2 with h2
    injection h2 with hv hch
    subst hv
    subst hch
    exact ⟨⟨rfl, rfl, rfl, rfl⟩, hh, fun _ => rfl, fun hx => absurd hx (by decide), fun _ hns => hns⟩


theorem dealias_frame (env : DockerEnv) (st : FwState) (self : Nat)
    (a stored : String) :
    sameButCache (dealiasEndpoint env st self a stored).1 st := by
  unfold dealiasEndpoint
  split
  · rcases hp : stParseAddress env st a self false with ⟨st1, rp⟩
    have hframe := stParseAddress_frame env st a self false
    rw [hp] at hframe
    rcases rp with e | resv
    · exact hframe
    · dsimp only
      split
      · exact hframe
      · exact hframe
  · exact ⟨rfl, rfl, rfl, rfl⟩

theorem internalDelete_frame (st : FwState) (rule : String) :
    (internalDelete st rule).1.cache = st.cache ∧
    (internalDelete st rule).1.ruleFiles = st.ruleFiles ∧
    (internalDelete st rule).1.hostConfigFiles = st.hostConfigFiles ∧
    (internalDelete st rule).1.ops = st.ops ++ [FwOp.del rule] := by
  unfold internalDelete
  dsimp only
  split <;> exact ⟨rfl, rfl, rfl, rfl⟩

theorem internalAppend_spec (st : FwState) (rule : String) :
    (internalAppend st rule).2 = .ok () ∧
    (internalAppend st rule).1.cache = st.cache ∧
    (internalAppend st rule).1.ruleFiles = st.ruleFiles ∧
    (internalAppend st rule).1.hostConfigFiles = st.hostConfigFiles ∧
    (∃ t, (internalAppend st rule).1.ops = st.ops ++ t) ∧
    (RuleExists st rule = false →
      ∃ t, t ≠ [] ∧ (internalAppend st rule).1.ops = st.ops ++ t) := by
  unfold internalAppend
  split
  · rename_i hex
    exact ⟨rfl, rfl, rfl, rfl, ⟨[], by simp⟩,
      fun hne => absurd hne (by simp [hex])⟩
  · exact ⟨rfl, rfl, rfl, rfl, ⟨[FwOp.app rule], rfl⟩,
      fun _ => ⟨[FwOp.app rule], by simp, rfl⟩⟩

theorem internalInsert_spec (st : FwState) (pos : Nat) (rule : String) :
    (internalInsert st pos rule).2 = .ok () ∧
    (internalInsert st pos rule).1.cache = st.cache ∧
    (internalInsert st pos rule).1.ruleFiles = st.ruleFiles ∧
    (internalInsert st pos rule).1.hostConfigFiles = st.hostConfigFiles ∧
    (∃ t, (internalInsert st pos rule).1.ops = st.ops ++ t) ∧
    (RuleExists st rule = false →
      ∃ t, t ≠ [] ∧ (internalInsert st pos rule).1.ops = st.ops ++ t) := by
  unfold internalInsert
  split
  · rename_i hex
    exact ⟨rfl, rfl, rfl, rfl, ⟨[], by simp⟩,
      fun hne => absurd hne (by simp [hex])⟩
  · exact ⟨rfl, rfl, rfl, rfl, ⟨[FwOp.ins pos rule], rfl⟩,
      fun _ => ⟨[FwOp.ins pos rule], by simp, rfl⟩⟩

theorem replayDropOld_dry (st : FwState) (rule oldRule : String) (h : Bool) :
    replayDropOld true st rule oldRule h =
      (st, if rule ≠ oldRule ∧ RuleExists st oldRule then true else h) := by
  unfold replayDropOld
  by_cases h1 : rule = oldRule
  · simp [h1]
  · by_cases h2 : RuleExists st oldRule
    · simp [h1, h2]
    · simp [h1, h2]

theorem replayDropOld_live_eq (st : FwState) (rule oldRule : String) (h : Bool)
    (heq : rule = oldRule) :
    replayDropOld false st rule oldRule h = (st, h) := by
  unfold replayDropOld
  rw [if_neg (by simp [heq])]

theorem replayDropOld_live_ne (st : FwState) (rule oldRule : String) (h : Bool)
    (hne : rule ≠ oldRule) :
    replayDropOld false st rule oldRule h = ((internalDelete st oldRule).1, h) := by
  unfold replayDropOld
  rw [if_pos hne, if_neg (by simp)]

theorem replayEnsure_dry (st : FwState) (r1 : ActiveIptablesRule)
    (rule : String) (h : Bool) :
    replayEnsure true st r1 rule h =
      (st, .ok (if RuleExists st rule then h else true)) := by
  unfold replayEnsure
  by_cases hex : RuleExists st rule
  · simp [hex]
  · simp only [Bool.not_eq_true] at hex
    simp [hex]

theorem replayEnsure_live_exists (st : FwState) (r1 : ActiveIptablesRule)
    (rule : String) (h : Bool) (hex : RuleExists st rule = true) :
    replayEnsure false st r1 rule h = (st, .ok h) := by
  unfold replayEnsure
  rw [if_pos hex]

theorem replayEnsure_live_missing (st : FwState) (r1 : ActiveIptablesRule)
    (rule : String) (h : Bool) (hex : RuleExists st rule = false)
    (hch : chainOk r1) :
    (replayEnsure false st r1 rule h).2 = .ok h ∧
    (replayEnsure false st r1 rule h).1.cache = st.cache ∧
    (replayEnsure false st r1 rule h).1.ruleFiles = st.ruleFiles ∧
    ∃ t, t ≠ [] ∧ (replayEnsure false st r1 rule h).1.ops = st.ops ++ t := by
  unfold replayEnsure
  rw [if_neg (by simp [hex])]
  by_cases hdoc : r1.Chain = DOCKER_CHAIN
  · rw [if_pos hdoc, if_neg (by decide)]
    rcases ha : internalAppend st rule with ⟨st4, r4⟩
    have hspec := internalAppend_spec st rule
    rw [ha] at hspec
    try rw [ha]
    rcases r4 with e | u
    · exact absurd hspec.1 (by simp)
    · dsimp only
      obtain ⟨t, ht, hops⟩ := hspec.2.2.2.2.2 hex
      exact ⟨rfl, hspec.2.1, hspec.2.2.1, t, ht, hops⟩
  · rw [if_neg hdoc, if_neg (by decide)]
    have hpos : ∃ p, r1.Position = .ok p := by
      rcases hch with h1 | h1 | h1
      · exact ⟨2, by simp [ActiveIptablesRule.Position, h1]⟩
      · exact ⟨1, by simp [ActiveIptablesRule.Position, h1]⟩
      · exact absurd h1 hdoc
    obtain ⟨p, hp⟩ := hpos
    rw [hp]
    dsimp only
    rcases hi : internalInsert st p rule with ⟨st4, r4⟩
    have hspec := internalInsert_spec st p rule
    rw [hi] at hspec
    try rw [hi]
    rcases r4 with e | u
    · exact absurd hspec.1 (by simp)
    · dsimp only
      obtain ⟨t, ht, hops⟩ := hspec.2.2.2.2.2 hex
      exact ⟨rfl, hspec.2.1, hspec.2.2.1, t, ht, hops⟩

theorem replayEnsure_ops (d : Bool) (st : FwState) (r1 : ActiveIptablesRule)
    (rule : String) (h : Bool) :
    ∃ t, (replayEnsure d st r1 rule h).1.ops = st.ops ++ t := by
  unfold replayEnsure
  split
  · exact ⟨[], by simp⟩
  · split
    · split
      · exact ⟨[], by simp⟩
      · rcases ha : internalAppend st rule with ⟨st4, r4⟩
        have hspec := internalAppend_spec st rule
        rw [ha] at hspec
        obtain ⟨t, ht⟩ := hspec.2.2.2.2.1
        rcases r4 with e | u <;> exact ⟨t, ht⟩
    · split
      · exact ⟨[], by simp⟩
      · split
        · exact ⟨[], by simp⟩
        · rename_i pos hp
          rcases hi : internalInsert st pos rule with ⟨st4, r4⟩
          have hspec := internalInsert_spec st pos rule
          rw [hi] at hspec
          obtain ⟨t, ht⟩ := hspec.2.2.2.2.1
          rcases r4 with e | u <;> exact ⟨t, ht⟩

theorem stLookupOnline_heapWf (env : DockerEnv) (st : FwState) (cid : String)
    (he : envWf env) (hh : heapWf st.cache) :
    heapWf (stLookupOnline env st cid).1.cache := by
  rcases hl : lookupInternal env st.cache cid true with ⟨c1, res⟩
  have : (stLookupOnline env st cid).1.cache = c1 := by
    show (LookupOnlineContainer env st.cache cid).1 = c1
    rw [LookupOnlineContainer, hl]
  rw [this]
  exact lookupInternal_heapWf hl he hh

theorem dealias_wf (env : DockerEnv) (st : FwState) (self : Nat)
    (a stored : String) (he : envWf env) (hh : heapWf st.cache) :
    heapWf ((dealiasEndpoint env st self a stored).1).cache := by
  unfold dealiasEndpoint
  split
  · rcases hp : stParseAddress env st a self false with ⟨st1, rp⟩
    have hwf := parseAddress_wf (stParseAddress_eq env st a self false) he hh
    rw [hp] at hwf
    dsimp only at hwf
    rcases rp with e | res
    · exact hwf.1
    · dsimp only
      split
      · exact hwf.1
      · exact hwf.1
  · exact hh

theorem replayDropOld_state (d : Bool) (st : FwState) (rule oldRule : String)
    (h : Bool) :
    (replayDropOld d st rule oldRule h).1.cache = st.cache ∧
    (replayDropOld d st rule oldRule h).1.ruleFiles = st.ruleFiles ∧
    (replayDropOld d st rule oldRule h).1.hostConfigFiles = st.hostConfigFiles ∧
    ∃ t, (replayDropOld d st rule oldRule h).1.ops = st.ops ++ t := by
  unfold replayDropOld
  split
  · split
    · split
      · exact ⟨rfl, rfl, rfl, [], by simp⟩
      · exact ⟨rfl, rfl, rfl, [], by simp⟩
    · have hspec := internalDelete_frame st oldRule
      exact ⟨hspec.1, hspec.2.1, hspec.2.2.1, [FwOp.del oldRule], hspec.2.2.2⟩
  · exact ⟨rfl, rfl, rfl, [], by simp⟩

theorem replayEnsure_state (d : Bool) (st : FwState) (r1 : ActiveIptablesRule)
    (rule : String) (h : Bool) :
    (replayEnsure d st r1 rule h).1.cache = st.cache ∧
    (replayEnsure d st r1 rule h).1.ruleFiles = st.ruleFiles ∧
    (replayEnsure d st r1 rule h).1.hostConfigFiles = st.hostConfigFiles ∧
    ∃ t, (replayEnsure d st r1 rule h).1.ops = st.ops ++ t := by
  unfold replayEnsure
  split
  · exact ⟨rfl, rfl, rfl, [], by simp⟩
  · split
    · split
      · exact ⟨rfl, rfl, rfl, [], by simp⟩
      · rcases ha : internalAppend st rule with ⟨st4, r4⟩
        have hspec := internalAppend_spec st rule
        rw [ha] at hspec
        obtain ⟨t, ht⟩ := hspec.2.2.2.2.1
        rcases r4 with e | u <;>
          exact ⟨hspec.2.1, hspec.2.2.1, hspec.2.2.2.1, t, ht⟩
    · split
      · exact ⟨rfl, rfl, rfl, [], by simp⟩
      · split
        · exact ⟨rfl, rfl, rfl, [], by simp⟩
        · rename_i pos hp
          rcases hi : internalInsert st pos rule with ⟨st4, r4⟩
          have hspec := internalInsert_spec st pos rule
          rw [hi] at hspec
          obtain ⟨t, ht⟩ := hspec.2.2.2.2.1
          rcases r4 with e | u <;>
            exact ⟨hspec.2.1, hspec.2.2.1, hspec.2.2.2.1, t, ht⟩

theorem replayEnsure_ok_exists {st st' : FwState} {r1 : ActiveIptablesRule}
    {rule : String} {h h2 : Bool}
    (hE : replayEnsure false st r1 rule h = (st', Except.ok h2)) :
    RuleExists st' rule = true := by
  unfold replayEnsure at hE
  split at hE
  · rename_i hex
    injection hE with h1 _
    subst h1
    exact hex
  · rename_i hex
    rw [Bool.not_eq_true] at hex
    split at hE
    · rw [if_neg (by decide)] at hE
      have ha : internalAppend st rule =
          ({ st with
              backend := st.backend ++ [rule]
              ops := st.ops ++ [FwOp.app rule] }, Except.ok ()) := by
        unfold internalAppend
        rw [if_neg (by simp [hex])]
      rw [ha] at hE
      dsimp only at hE
      injection hE with h1 _
      subst h1
      simp [RuleExists]
    · rw [if_neg (by decide)] at hE
      rcases hpos : r1.Position with e | p
      · rw [hpos] at hE
        dsimp only at hE
        injection hE with _ hbad
        exact Except.noConfusion hbad
      · rw [hpos] at hE
        dsimp only at hE
        have hi : internalInsert st p rule =
            ({ st with
                backend := rule :: st.backend
                ops := st.ops ++ [FwOp.ins p rule] }, Except.ok ()) := by
          unfold internalInsert
          rw [if_neg (by simp [hex])]
        rw [hi] at hE
        dsimp only at hE
        injection hE with h1 _
        subst h1
        simp [RuleExists]

theorem sameButCache_trans {a b c : FwState}
    (h1 : sameButCache a b) (h2 : sameButCache b c) : sameButCache a c :=
  ⟨h1.1.trans h2.1, h1.2.1.trans h2.2.1, h1.2.2.1.trans h2.2.2.1,
    h1.2.2.2.trans h2.2.2.2⟩

theorem replayRule_state (env : DockerEnv) (d : Bool) (self : Nat)
    (st : FwState) (r : ActiveIptablesRule) (c h : Bool)
    (he : envWf env) (hh : heapWf st.cache) :
    heapWf (replayRule env d self st r c h).1.cache ∧
    (replayRule env d self st r c h).1.ruleFiles = st.ruleFiles ∧
    (replayRule env d self st r c h).1.hostConfigFiles = st.hostConfigFiles ∧
    ∃ t, (replayRule env d self st r c h).1.ops = st.ops ++ t := by
  unfold replayRule
  dsimp only
  rcases hs : dealiasEndpoint env st self r.SourceAlias r.Source with ⟨stA, rs⟩
  have hfA := dealias_frame env st self r.SourceAlias r.Source
  have hwA := dealias_wf env st self r.SourceAlias r.Source he hh
  rw [hs] at hfA hwA
  dsimp only at hfA hwA
  rcases rs with e | src
  · exact ⟨hwA, hfA.2.1, hfA.2.2.1, [], by simp [hfA.2.2.2]⟩
  · dsimp only
    rcases hd2 : dealiasEndpoint env stA self r.DestinationAlias r.Destination
      with ⟨stB, rd⟩
    have hfB := dealias_frame env stA self r.DestinationAlias r.Destination
    have hwB := dealias_wf env stA self r.DestinationAlias r.Destination he hwA
    rw [hd2] at hfB hwB
    dsimp only at hfB hwB
    rcases rd with e | dst
    · exact ⟨hwB, by rw [hfB.2.1, hfA.2.1], by rw [hfB.2.2.1, hfA.2.2.1],
        [], by simp [hfB.2.2.2, hfA.2.2.2]⟩
    · dsimp only
      have hds := replayDropOld_state d stB
        (ActiveIptablesRule.Format { r with Source := src.1, Destination := dst.1 })
        (ActiveIptablesRule.Format r) h
      obtain ⟨t1, ht1⟩ := hds.2.2.2
      have hes := replayEnsure_state d
        (replayDropOld d stB
          (ActiveIptablesRule.Format { r with Source := src.1, Destination := dst.1 })
          (ActiveIptablesRule.Format r) h).1
        { r with Source := src.1, Destination := dst.1 }
        (ActiveIptablesRule.Format { r with Source := src.1, Destination := dst.1 })
        (replayDropOld d stB
          (ActiveIptablesRule.Format { r with Source := src.1, Destination := dst.1 })
          (ActiveIptablesRule.Format r) h).2
      obtain ⟨t2, ht2⟩ := hes.2.2.2
      rcases hE : replayEnsure d
        (replayDropOld d stB
          (ActiveIptablesRule.Format { r with Source := src.1, Destination := dst.1 })
          (ActiveIptablesRule.Format r) h).1
        { r with Source := src.1, Destination := dst.1 }
        (ActiveIptablesRule.Format { r with Source := src.1, Destination := dst.1 })
        (replayDropOld d stB
          (ActiveIptablesRule.Format { r with Source := src.1, Destination := dst.1 })
          (ActiveIptablesRule.Format r) h).2 with ⟨st4, r4⟩
      rw [hE] at hes ht2
      dsimp only at hes ht2
      rcases r4 with e | hc <;> dsimp only <;>
        exact ⟨by rw [hes.1, hds.1]; exact hwB,
          by rw [hes.2.1, hds.2.1, hfB.2.1, hfA.2.1],
          by rw [hes.2.2.1, hds.2.2.1, hfB.2.2.1, hfA.2.2.1],
          t1 ++ t2,
          by rw [ht2, ht1, hfB.2.2.2, hfA.2.2.2, List.append_assoc]⟩

theorem replayRule_dry_frame (env : DockerEnv) (self : Nat) (st : FwState)
    (r : ActiveIptablesRule) (c h : Bool) :
    sameButCache (replayRule env true self st r c h).1 st := by
  unfold replayRule
  dsimp only
  rcases hs : dealiasEndpoint env st self r.SourceAlias r.Source with ⟨stA, rs⟩
  have hfA := dealias_frame env st self r.SourceAlias r.Source
  rw [hs] at hfA
  rcases rs with e | src
  · exact hfA
  · dsimp only
    rcases hd2 : dealiasEndpoint env stA self r.DestinationAlias r.Destination
      with ⟨stB, rd⟩
    have hfB := dealias_frame env stA self r.DestinationAlias r.Destination
    rw [hd2] at hfB
    rcases rd with e | dst
    · exact sameButCache_trans hfB hfA
    · dsimp only
      rw [replayDropOld_dry]
      dsimp only
      rw [replayEnsure_dry]
      dsimp only
      exact sameButCache_trans hfB hfA

theorem replayDropOld_flag (d : Bool) (st : FwState) (rule oldRule : String)
    (h : Bool) (hh : h = true) :
    (replayDropOld d st rule oldRule h).2 = true := by
  unfold replayDropOld
  split
  · split
    · split
      · rfl
      · exact hh
    · exact hh
  · exact hh

theorem replayEnsure_flag {d : Bool} {st st4 : FwState}
    {r1 : ActiveIptablesRule} {rule : String} {h hc : Bool}
    (hE : replayEnsure d st r1 rule h = (st4, Except.ok hc)) (hh : h = true) :
    hc = true := by
  unfold replayEnsure at hE
  split at hE
  · injection hE with _ h2
    injection h2 with h2
    rw [← h2]
    exact hh
  · split at hE
    · split at hE
      · injection hE with _ h2
        injection h2 with h2
        exact h2.symm
      · rcases ha : internalAppend st rule with ⟨sa, ra⟩
        rw [ha] at hE
        rcases ra with e | u
        · dsimp only at hE
          injection hE with _ h2
          exact Except.noConfusion h2
        · dsimp only at hE
          injection hE with _ h2
          injection h2 with h2
          rw [← h2]
          exact hh
    · split at hE
      · injection hE with _ h2
        injection h2 with h2
        exact h2.symm
      · split at hE
        · injection hE with _ h2
          exact Except.noConfusion h2
        · rename_i pos hp
          rcases hi : internalInsert st pos rule with ⟨sa, ra⟩
          rw [hi] at hE
          rcases ra with e | u
          · dsimp only at hE
            injection hE with _ h2
            exact Except.noConfusion h2
          · dsimp only at hE
            injection hE with _ h2
            injection h2 with h2
            rw [← h2]
            exact hh

theorem replayRule_flags {env : DockerEnv} {d : Bool} {self : Nat}
    {st stR : FwState} {r r1 : ActiveIptablesRule} {c h c1 h1 : Bool}
    (hE : replayRule env d self st r c h = (stR, Except.ok (r1, c1, h1))) :
    (c = true → c1 = true) ∧ (h = true → h1 = true) := by
  unfold replayRule at hE
  dsimp only at hE
  rcases hs : dealiasEndpoint env st self r.SourceAlias r.Source with ⟨stA, rs⟩
  rw [hs] at hE
  rcases rs with e | src
  · dsimp only at hE
    injection hE with _ h2
    exact Except.noConfusion h2
  · dsimp only at hE
    rcases hd2 : dealiasEndpoint env stA self r.DestinationAlias r.Destination
      with ⟨stB, rd⟩
    rw [hd2] at hE
    rcases rd with e | dst
    · dsimp only at hE
      injection hE with _ h2
      exact Except.noConfusion h2
    · dsimp only at hE
      split at hE
      · injection hE with _ h2
        exact Except.noConfusion h2
      · rename_i st4 hc hens
        injection hE with h1eq h2eq
        injection h2eq with h2eq
        injection h2eq with hr1 hrest
        injection hrest with hceq hheq
        constructor
        · intro hcc
          rw [← hceq, hcc]
          rfl
        · intro hhh
          rw [← hheq]
          exact replayEnsure_flag hens
            (replayDropOld_flag _ _ _ _ _ hhh)

theorem replayRulesLoop_nil (env : DockerEnv) (d : Bool) (self : Nat)
    (st : FwState) (acc : List ActiveIptablesRule) (c h : Bool) :
    replayRulesLoop env d self st [] acc c h = (st, .ok (acc, c, h)) := rfl

theorem replayRulesLoop_cons (env : DockerEnv) (d : Bool) (self : Nat)
    (st : FwState) (r : ActiveIptablesRule) (rest acc : List ActiveIptablesRule)
    (c h : Bool) :
    replayRulesLoop env d self st (r :: rest) acc c h =
      (match replayRule env d self st r c h with
       | (st1, .error e) => (st1, .error e)
       | (st1, .ok (r1, c1, h1)) =>
         replayRulesLoop env d self st1 rest (acc ++ [r1]) c1 h1) := rfl

theorem replayRulesLoop_state (env : DockerEnv) (d : Bool) (self : Nat) :
    ∀ (rs : List ActiveIptablesRule) (st : FwState)
      (acc : List ActiveIptablesRule) (c h : Bool),
      envWf env → heapWf st.cache →
      heapWf (replayRulesLoop env d self st rs acc c h).1.cache ∧
      (replayRulesLoop env d self st rs acc c h).1.ruleFiles = st.ruleFiles ∧
      (replayRulesLoop env d self st rs acc c h).1.hostConfigFiles = st.hostConfigFiles ∧
      ∃ t, (replayRulesLoop env d self st rs acc c h).1.ops = st.ops ++ t := by
  intro rs
  induction rs with
  | nil =>
    intro st acc c h he hh
    rw [replayRulesLoop_nil]
    exact ⟨hh, rfl, rfl, [], by simp⟩
  | cons r rest ih =>
    intro st acc c h he hh
    rw [replayRulesLoop_cons]
    rcases hR : replayRule env d self st r c h with ⟨st1, res⟩
    have hrs := replayRule_state env d self st r c h he hh
    rw [hR] at hrs
    dsimp only at hrs
    obtain ⟨t1, ht1⟩ := hrs.2.2.2
    rcases res with e | trip
    · exact ⟨hrs.1, hrs.2.1, hrs.2.2.1, t1, ht1⟩
    · rcases trip with ⟨r1, c1, h1⟩
      dsimp only
      have hIH := ih st1 (acc ++ [r1]) c1 h1 he hrs.1
      obtain ⟨t2, ht2⟩ := hIH.2.2.2
      exact ⟨hIH.1, hIH.2.1.trans hrs.2.1, hIH.2.2.1.trans hrs.2.2.1,
        t1 ++ t2, by rw [ht2, ht1, List.append_assoc]⟩

theorem replayRulesLoop_dry_frame (env : DockerEnv) (self : Nat) :
    ∀ (rs : List ActiveIptablesRule) (st : FwState)
      (acc : List ActiveIptablesRule) (c h : Bool),
      sameButCache (replayRulesLoop env true self st rs acc c h).1 st := by
  intro rs
  induction rs with
  | nil =>
    intro st acc c h
    exact ⟨rfl, rfl, rfl, rfl⟩
  | cons r rest ih =>
    intro st acc c h
    rw [replayRulesLoop_cons]
    rcases hR : replayRule env true self st r c h with ⟨st1, res⟩
    have hf := replayRule_dry_frame env self st r c h
    rw [hR] at hf
    dsimp only at hf
    rcases res with e | trip
    · exact hf
    · rcases trip with ⟨r1, c1, h1⟩
      dsimp only
      exact sameButCache_trans (ih st1 (acc ++ [r1]) c1 h1) hf

theorem replayRulesLoop_acc (env : DockerEnv) (d : Bool) (self : Nat) :
    ∀ (rs : List ActiveIptablesRule) (st : FwState)
      (acc : List ActiveIptablesRule) (c h : Bool) {stO : FwState}
      {accO : List ActiveIptablesRule} {cO hO : Bool},
      replayRulesLoop env d self st rs acc c h = (stO, Except.ok (accO, cO, hO)) →
      ∃ more, accO = acc ++ more := by
  intro rs
  induction rs with
  | nil =>
    intro st acc c h stO accO cO hO hE
    rw [replayRulesLoop_nil] at hE
    injection hE with _ h2
    injection h2 with h2
    injection h2 with ha _
    exact ⟨[], by simp [← ha]⟩
  | cons r rest ih =>
    intro st acc c h stO accO cO hO hE
    rw [replayRulesLoop_cons] at hE
    rcases hR : replayRule env d self st r c h with ⟨st1, res⟩
    rw [hR] at hE
    rcases res with e | trip
    · dsimp only at hE
      injection hE with _ h2
      exact Except.noConfusion h2
    · rcases trip with ⟨r1, c1, h1⟩
      dsimp only at hE
      obtain ⟨more, hm⟩ := ih st1 (acc ++ [r1]) c1 h1 hE
      exact ⟨r1 :: more, by rw [hm]; simp⟩

theorem replayRulesLoop_flags (env : DockerEnv) (d : Bool) (self : Nat) :
    ∀ (rs : List ActiveIptablesRule) (st : FwState)
      (acc : List ActiveIptablesRule) (c h : Bool) {stO : FwState}
      {accO : List ActiveIptablesRule} {cO hO : Bool},
      replayRulesLoop env d self st rs acc c h = (stO, Except.ok (accO, cO, hO)) →
      (c = true → cO = true) ∧ (h = true → hO = true) := by
  intro rs
  induction rs with
  | nil =>
    intro st acc c h stO accO cO hO hE
    rw [replayRulesLoop_nil] at hE
    injection hE with _ h2
    injection h2 with h2
    injection h2 with _ h2
    injection h2 with hc hh
    exact ⟨fun hx => hc ▸ hx, fun hx => hh ▸ hx⟩
  | cons r rest ih =>
    intro st acc c h stO accO cO hO hE
    rw [replayRulesLoop_cons] at hE
    rcases hR : replayRule env d self st r c h with ⟨st1, res⟩
    rw [hR] at hE
    rcases res with e | trip
    · dsimp only at hE
      injection hE with _ h2
      exact Except.noConfusion h2
    · rcases trip with ⟨r1, c1, h1⟩
      dsimp only at hE
      have hflags := replayRule_flags hR
      have hIH := ih st1 (acc ++ [r1]) c1 h1 hE
      exact ⟨fun hx => hIH.1 (hflags.1 hx), fun hx => hIH.2 (hflags.2 hx)⟩

theorem replayRulesLoop_append (env : DockerEnv) (d : Bool) (self : Nat) :
    ∀ (xs ys : List ActiveIptablesRule) (st : FwState)
      (acc : List ActiveIptablesRule) (c h : Bool),
      replayRulesLoop env d self st (xs ++ ys) acc c h =
        (match replayRulesLoop env d self st xs acc c h with
         | (st1, .error e) => (st1, .error e)
         | (st1, .ok (a1, c1, h1)) => replayRulesLoop env d self st1 ys a1 c1 h1) := by
  intro xs
  induction xs with
  | nil =>
    intro ys st acc c h
    rfl
  | cons x xs ih =>
    intro ys st acc c h
    rw [List.cons_append, replayRulesLoop_cons, replayRulesLoop_cons]
    rcases hR : replayRule env d self st x c h with ⟨st1, res⟩
    rcases res with e | trip
    · rfl
    · rcases trip with ⟨r1, c1, h1⟩
      dsimp only
      exact ih ys st1 (acc ++ [r1]) c1 h1

theorem saveRules_state (st : FwState) (cid : String)
    (rules : List ActiveIptablesRule) :
    (SaveRules st cid rules).cache = st.cache ∧
    (SaveRules st cid rules).backend = st.backend ∧
    (SaveRules st cid rules).hostConfigFiles = st.hostConfigFiles ∧
    (SaveRules st cid rules).ops = st.ops ∧
    (SaveRules st cid rules).ruleFiles cid = some rules :=
  ⟨rfl, rfl, rfl, rfl, by simp [SaveRules]⟩

theorem replayContainer_dry_frame (env : DockerEnv) (st : FwState)
    (cid : String) (h : Bool) :
    sameButCache (replayContainer env true st cid h).1 st := by
  unfold replayContainer
  rcases hL : stLookupOnline env st cid with ⟨st1, res⟩
  have hf := stLookupOnline_frame env st cid
  rw [hL] at hf
  dsimp only at hf
  rcases res with e | self
  · exact hf
  · dsimp only
    rcases hLoop : replayRulesLoop env true self st1
        (LoadRules st1 (st1.cache.deref self).id) [] false h with ⟨st2, res2⟩
    have hlf := replayRulesLoop_dry_frame env self
      (LoadRules st1 (st1.cache.deref self).id) st1 [] false h
    rw [hLoop] at hlf
    dsimp only at hlf
    rcases res2 with e | trip
    · exact sameButCache_trans hlf hf
    · rcases trip with ⟨newRules, changed, h1⟩
      dsimp only
      rw [if_neg (fun hc => hc.1 rfl)]
      exact sameButCache_trans hlf hf

theorem replayContainer_flag {env : DockerEnv} {d : Bool} {st stO : FwState}
    {cid : String} {h hO : Bool}
    (hE : replayContainer env d st cid h = (stO, Except.ok hO))
    (hh : h = true) : hO = true := by
  unfold replayContainer at hE
  rcases hL : stLookupOnline env st cid with ⟨st1, res⟩
  rw [hL] at hE
  rcases res with e | self
  · dsimp only at hE
    injection hE with _ h2
    exact Except.noConfusion h2
  · dsimp only at hE
    rcases hLoop : replayRulesLoop env d self st1
        (LoadRules st1 (st1.cache.deref self).id) [] false h with ⟨st2, res2⟩
    rw [hLoop] at hE
    rcases res2 with e | trip
    · dsimp only at hE
      injection hE with _ h2
      exact Except.noConfusion h2
    · rcases trip with ⟨newRules, changed, h1⟩
      dsimp only at hE
      have h1t : h1 = true :=
        (replayRulesLoop_flags env d self _ st1 [] false h hLoop).2 hh
      have hval : (if changed = true then true else h1) = true := by
        by_cases hch : changed = true
        · rw [if_pos hch]
        · rw [if_neg hch]; exact h1t
      split at hE
      · injection hE with _ h2
        injection h2 with h2
        rw [← h2]
        exact hval
      · injection hE with _ h2
        injection h2 with h2
        rw [← h2]
        exact hval

theorem replayContainer_state (env : DockerEnv) (d : Bool) (st : FwState)
    (cid : String) (h : Bool) (he : envWf env) (hh : heapWf st.cache) :
    heapWf (replayContainer env d st cid h).1.cache ∧
    (replayContainer env d st cid h).1.hostConfigFiles = st.hostConfigFiles ∧
    ∃ t, (replayContainer env d st cid h).1.ops = st.ops ++ t := by
  unfold replayContainer
  rcases hL : stLookupOnline env st cid with ⟨st1, res⟩
  have hf := stLookupOnline_frame env st cid
  have hw1 := stLookupOnline_heapWf env st cid he hh
  rw [hL] at hf hw1
  dsimp only at hf hw1
  rcases res with e | self
  · exact ⟨hw1, hf.2.2.1, [], by simp [hf.2.2.2]⟩
  · dsimp only
    rcases hLoop : replayRulesLoop env d self st1
        (LoadRules st1 (st1.cache.deref self).id) [] false h with ⟨st2, res2⟩
    have hls := replayRulesLoop_state env d self
      (LoadRules st1 (st1.cache.deref self).id) st1 [] false h he hw1
    rw [hLoop] at hls
    dsimp only at hls
    obtain ⟨t2, ht2⟩ := hls.2.2.2
    rcases res2 with e | trip
    · exact ⟨hls.1, hls.2.2.1.trans hf.2.2.1, t2, by rw [ht2, hf.2.2.2]⟩
    · rcases trip with ⟨newRules, changed, h1⟩
      dsimp only
      split
      · exact ⟨hls.1, hls.2.2.1.trans hf.2.2.1, t2,
          show st2.ops = st.ops ++ t2 by rw [ht2, hf.2.2.2]⟩
      · exact ⟨hls.1, hls.2.2.1.trans hf.2.2.1, t2,
          show st2.ops = st.ops ++ t2 by rw [ht2, hf.2.2.2]⟩

theorem replayLoop_nil (env : DockerEnv) (d : Bool) (st : FwState) (h : Bool) :
    replayLoop env d st [] h = (st, .ok h) := rfl

theorem replayLoop_cons (env : DockerEnv) (d : Bool) (st : FwState)
    (cid : String) (rest : List String) (h : Bool) :
    replayLoop env d st (cid :: rest) h =
      (match replayContainer env d st cid h with
       | (st1, .error e) => (st1, .error e)
       | (st1, .ok h1) => replayLoop env d st1 rest h1) := rfl

theorem replayLoop_dry_frame (env : DockerEnv) :
    ∀ (cids : List String) (st : FwState) (h : Bool),
      sameButCache (replayLoop env true st cids h).1 st := by
  intro cids
  induction cids with
  | nil =>
    intro st h
    exact ⟨rfl, rfl, rfl, rfl⟩
  | cons cid rest ih =>
    intro st h
    rw [replayLoop_cons]
    rcases hC : replayContainer env true st cid h with ⟨st1, res⟩
    have hf := replayContainer_dry_frame env st cid h
    rw [hC] at hf
    dsimp only at hf
    rcases res with e | h1
    · exact hf
    · dsimp only
      exact sameButCache_trans (ih st1 h1) hf

theorem replayLoop_flag (env : DockerEnv) (d : Bool) :
    ∀ (cids : List String) (st : FwState) (h : Bool) {stO : FwState} {hO : Bool},
      replayLoop env d st cids h = (stO, Except.ok hO) →
      h = true → hO = true := by
  intro cids
  induction cids with
  | nil =>
    intro st h stO hO hE hh
    rw [replayLoop_nil] at hE
    injection hE with _ h2
    injection h2 with h2
    rw [← h2]
    exact hh
  | cons cid rest ih =>
    intro st h stO hO hE hh
    rw [replayLoop_cons] at hE
    rcases hC : replayContainer env d st cid h with ⟨st1, res⟩
    rw [hC] at hE
    rcases res with e | h1
    · dsimp only at hE
      injection hE with _ h2
      exact Except.noConfusion h2
    · dsimp only at hE
      exact ih st1 h1 hE (replayContainer_flag hC hh)

theorem replayLoop_state (env : DockerEnv) (d : Bool) :
    ∀ (cids : List String) (st : FwState) (h : Bool),
      envWf env → heapWf st.cache →
      heapWf (replayLoop env d st cids h).1.cache ∧
      ∃ t, (replayLoop env d st cids h).1.ops = st.ops ++ t := by
  intro cids
  induction cids with
  | nil =>
    intro st h he hh
    rw [replayLoop_nil]
    exact ⟨hh, [], by simp⟩
  | cons cid rest ih =>
    intro st h he hh
    rw [replayLoop_cons]
    rcases hC : replayContainer env d st cid h with ⟨st1, res⟩
    have hcs := replayContainer_state env d st cid h he hh
    rw [hC] at hcs
    dsimp only at hcs
    obtain ⟨t1, ht1⟩ := hcs.2.2
    rcases res with e | h1
    · exact ⟨hcs.1, t1, ht1⟩
    · dsimp only
      have hIH := ih st1 h1 he hcs.1
      obtain ⟨t2, ht2⟩ := hIH.2
      exact ⟨hIH.1, t1 ++ t2, by rw [ht2, ht1, List.append_assoc]⟩

theorem replayRule_couple {env : DockerEnv} {self : Nat} {st stD : FwState}
    {r r1 : ActiveIptablesRule} {c1 h1 : Bool}
    (hD : replayRule env true self st r false false = (stD, Except.ok (r1, c1, h1)))
    (hr : ruleWf r) (he : envWf env) (hh : heapWf st.cache) :
    (c1 = false ∧ h1 = false ∧
      replayRule env false self st r false false = (stD, Except.ok (r1, c1, h1))) ∨
    ((c1 = true ∨ h1 = true) ∧
      ∃ t, t ≠ [] ∧ (replayRule env false self st r false false).1.ops = st.ops ++ t) := by
  unfold replayRule at hD ⊢
  dsimp only at hD ⊢
  rcases hs : dealiasEndpoint env st self r.SourceAlias r.Source with ⟨stA, rs⟩
  try rw [hs] at hD
  try rw [hs]
  rcases rs with e | src
  · dsimp only at hD
    injection hD with _ hbad
    exact Except.noConfusion hbad
  · rcases src with ⟨v, ch⟩
    dsimp only at hD ⊢
    rcases hd2 : dealiasEndpoint env stA self r.DestinationAlias r.Destination
      with ⟨stB, rd⟩
    try rw [hd2] at hD
    try rw [hd2]
    rcases rd with e | dst
    · dsimp only at hD
      injection hD with _ hbad
      exact Except.noConfusion hbad
    · rcases dst with ⟨w, cw⟩
      dsimp only at hD ⊢
      have hsp := dealias_spec hs he hh
      have hdp := dealias_spec hd2 he hsp.2.1
      have hopsA : stA.ops = st.ops := hsp.1.2.2.2
      have hopsB : stB.ops = stA.ops := hdp.1.2.2.2
      rw [replayDropOld_dry] at hD
      dsimp only at hD
      rw [replayEnsure_dry] at hD
      dsimp only at hD
      injection hD with hst hres
      subst hst
      injection hres with hres
      injection hres with hr1eq hres
      injection hres with hc1 hh1
      by_cases hch : ch = true
      · -- source address changed: the live run always issues the delete
        right
        have hvne : v ≠ r.Source := hsp.2.2.2.1 hch
        have hnsv : noSpace v := hsp.2.2.2.2 hr.2.2.1 hr.1
        have hnsw : noSpace w := hdp.2.2.2.2 hr.2.2.2.1 hr.2.1
        have hne : ActiveIptablesRule.Format { r with Source := v, Destination := w } ≠
            ActiveIptablesRule.Format r := by
          intro hcon
          exact hvne (format_inj r v w hr.1 hr.2.1 hnsv hnsw hcon).1
        constructor
        · left
          rw [← hc1, hch]
          rfl
        · rw [replayDropOld_live_ne _ _ _ _ hne]
          dsimp only
          rcases hE : replayEnsure false
              (internalDelete stB (ActiveIptablesRule.Format r)).1
              { r with Source := v, Destination := w }
              (ActiveIptablesRule.Format { r with Source := v, Destination := w })
              false with ⟨st4, r4⟩
          have hes := replayEnsure_state false
            (internalDelete stB (ActiveIptablesRule.Format r)).1
            { r with Source := v, Destination := w }
            (ActiveIptablesRule.Format { r with Source := v, Destination := w })
            false
          rw [hE] at hes
          dsimp only at hes
          obtain ⟨t2, ht2⟩ := hes.2.2.2
          have hdel := internalDelete_frame stB (ActiveIptablesRule.Format r)
          refine ⟨FwOp.del (ActiveIptablesRule.Format r) :: t2, by simp, ?_⟩
          rcases r4 with e | hc <;> dsimp only <;>
            rw [ht2, hdel.2.2.2, hopsB, hopsA, List.append_assoc] <;> rfl
      · -- source unchanged
        rw [Bool.not_eq_true] at hch
        subst hch
        have hv : v = r.Source := hsp.2.2.1 rfl
        by_cases hcw : cw = true
        · -- destination address changed
          right
          have hwne : w ≠ r.Destination := hdp.2.2.2.1 hcw
          have hnsv : noSpace v := hsp.2.2.2.2 hr.2.2.1 hr.1
          have hnsw : noSpace w := hdp.2.2.2.2 hr.2.2.2.1 hr.2.1
          have hne : ActiveIptablesRule.Format { r with Source := v, Destination := w } ≠
              ActiveIptablesRule.Format r := by
            intro hcon
            exact hwne (format_inj r v w hr.1 hr.2.1 hnsv hnsw hcon).2
          constructor
          · left
            rw [← hc1, hcw]
            rfl
          · rw [replayDropOld_live_ne _ _ _ _ hne]
            dsimp only
            rcases hE : replayEnsure false
                (internalDelete stB (ActiveIptablesRule.Format r)).1
                { r with Source := v, Destination := w }
                (ActiveIptablesRule.Format { r with Source := v, Destination := w })
                false with ⟨st4, r4⟩
            have hes := replayEnsure_state false
              (internalDelete stB (ActiveIptablesRule.Format r)).1
              { r with Source := v, Destination := w }
              (ActiveIptablesRule.Format { r with Source := v, Destination := w })
              false
            rw [hE] at hes
            dsimp only at hes
            obtain ⟨t2, ht2⟩ := hes.2.2.2
            have hdel := internalDelete_frame stB (ActiveIptablesRule.Format r)
            refine ⟨FwOp.del (ActiveIptablesRule.Format r) :: t2, by simp, ?_⟩
            rcases r4 with e | hc <;> dsimp only <;>
              rw [ht2, hdel.2.2.2, hopsB, hopsA, List.append_assoc] <;> rfl
        · -- both endpoints unchanged: the rule text is the one already stored
          rw [Bool.not_eq_true] at hcw
          subst hcw
          have hw : w = r.Destination := hdp.2.2.1 rfl
          have hr1r : ({ r with Source := v, Destination := w } : ActiveIptablesRule) = r := by
            rw [hv, hw]
          have hRO : ActiveIptablesRule.Format { r with Source := v, Destination := w } =
              ActiveIptablesRule.Format r := by
            rw [hr1r]
          have hflag : (if (ActiveIptablesRule.Format { r with Source := v, Destination := w } ≠
                ActiveIptablesRule.Format r) ∧
                RuleExists stB (ActiveIptablesRule.Format r) then true else false) = false := by
            rw [if_neg (fun hcon => hcon.1 hRO)]
          by_cases hex : RuleExists stB
              (ActiveIptablesRule.Format { r with Source := v, Destination := w })
          · -- clean: live run is a no-op with the same result
            left
            have hh1f : h1 = false := by
              rw [← hh1, if_pos hex, hflag]
            have hc1f : c1 = false := by
              rw [← hc1]
              rfl
            refine ⟨hc1f, hh1f, ?_⟩
            rw [replayDropOld_live_eq _ _ _ _ hRO]
            dsimp only
            rw [replayEnsure_live_exists _ _ _ _ hex]
            dsimp only
            rw [hr1eq, hc1, hh1f]
          · -- the stored text is missing: dry flags, live inserts or appends
            right
            rw [Bool.not_eq_true] at hex
            have hh1t : h1 = true := by
              rw [← hh1, hflag, if_neg (by simp [hex])]
            refine ⟨Or.inr hh1t, ?_⟩
            rw [replayDropOld_live_eq _ _ _ _ hRO]
            dsimp only
            have hchain : chainOk { r with Source := v, Destination := w } := by
              rw [hr1r]
              exact hr.2.2.2.2
            have hmiss := replayEnsure_live_missing stB
              { r with Source := v, Destination := w }
              (ActiveIptablesRule.Format { r with Source := v, Destination := w })
              false hex hchain
            obtain ⟨t, ht, hops⟩ := hmiss.2.2.2
            rcases hE : replayEnsure false stB
                { r with Source := v, Destination := w }
                (ActiveIptablesRule.Format { r with Source := v, Destination := w })
                false with ⟨st4, r4⟩
            rw [hE] at hops
            dsimp only at hops
            refine ⟨t, ht, ?_⟩
            rcases r4 with e | hc <;> dsimp only <;>
              rw [hops, hopsB, hopsA]

theorem replayRulesLoop_couple (env : DockerEnv) (self : Nat) :
    ∀ (rs : List ActiveIptablesRule) (st : FwState)
      (acc : List ActiveIptablesRule) {stD : FwState}
      {accD : List ActiveIptablesRule} {cD hD : Bool},
      replayRulesLoop env true self st rs acc false false =
        (stD, Except.ok (accD, cD, hD)) →
      (∀ r ∈ rs, ruleWf r) → envWf env → heapWf st.cache →
      (cD = false ∧ hD = false ∧
        replayRulesLoop env false self st rs acc false false =
          (stD, Except.ok (accD, cD, hD))) ∨
      ((cD = true ∨ hD = true) ∧
        ∃ t, t ≠ [] ∧
          (replayRulesLoop env false self st rs acc false false).1.ops =
            st.ops ++ t) := by
  intro rs
  induction rs with
  | nil =>
    intro st acc stD accD cD hD hE hwf he hh
    rw [replayRulesLoop_nil] at hE
    injection hE with h1 h2
    injection h2 with h2
    injection h2 with ha h2
    injection h2 with hc hhd
    left
    subst h1
    refine ⟨hc.symm ▸ rfl, hhd.symm ▸ rfl, ?_⟩
    rw [replayRulesLoop_nil, ha, ← hc, ← hhd]
  | cons r rest ih =>
    intro st acc stD accD cD hD hE hwf he hh
    rw [replayRulesLoop_cons] at hE
    rcases hR : replayRule env true self st r false false with ⟨st1, res⟩
    try rw [hR] at hE
    rcases res with e | trip
    · dsimp only at hE
      injection hE with _ hbad
      exact Except.noConfusion hbad
    · rcases trip with ⟨r1, c1, h1⟩
      dsimp only at hE
      have hw1 : heapWf st1.cache := by
        have hst := replayRule_state env true self st r false false he hh
        rw [hR] at hst
        exact hst.1
      have hframe1 : sameButCache st1 st := by
        have hfr := replayRule_dry_frame env self st r false false
        rw [hR] at hfr
        exact hfr
      rcases replayRule_couple hR (hwf r (List.mem_cons_self r rest)) he hh with
        ⟨hc1, hh1, hlive⟩ | ⟨hflag, t, ht, hops⟩
      · -- clean head: the live head is identical, recurse
        subst hc1
        subst hh1
        rcases ih st1 (acc ++ [r1]) hE
            (fun x hx => hwf x (List.mem_cons_of_mem r hx)) he hw1 with
          ⟨hcD, hhD, hliveloop⟩ | ⟨hflagD, t, ht, hops⟩
        · left
          refine ⟨hcD, hhD, ?_⟩
          rw [replayRulesLoop_cons, hlive]
          exact hliveloop
        · right
          refine ⟨hflagD, t, ht, ?_⟩
          rw [replayRulesLoop_cons, hlive]
          dsimp only
          rw [hops, hframe1.2.2.2]
      · -- flagged head: the live run has already issued an operation
        right
        have hflags := replayRulesLoop_flags env true self rest st1 (acc ++ [r1]) c1 h1 hE
        constructor
        · rcases hflag with hc | hhx
          · exact Or.inl (hflags.1 hc)
          · exact Or.inr (hflags.2 hhx)
        · rw [replayRulesLoop_cons]
          rcases hL : replayRule env false self st r false false with ⟨stL, resL⟩
          rw [hL] at hops
          dsimp only at hops
          have hwL : heapWf stL.cache := by
            have hst := replayRule_state env false self st r false false he hh
            rw [hL] at hst
            exact hst.1
          rcases resL with e | tripL
          · exact ⟨t, ht, hops⟩
          · rcases tripL with ⟨r1L, c1L, h1L⟩
            dsimp only
            have hls := replayRulesLoop_state env false self rest stL
              (acc ++ [r1L]) c1L h1L he hwL
            obtain ⟨t2, ht2⟩ := hls.2.2.2
            exact ⟨t ++ t2, by simp [ht], by rw [ht2, hops, List.append_assoc]⟩

theorem replayContainer_couple {env : DockerEnv} {st stD : FwState}
    {cid : String} {hD : Bool}
    (hE : replayContainer env true st cid false = (stD, Except.ok hD))
    (hf : ruleFilesWf st.ruleFiles) (he : envWf env) (hh : heapWf st.cache) :
    (hD = false ∧ replayContainer env false st cid false = (stD, Except.ok false)) ∨
    (hD = true ∧ ∃ t, t ≠ [] ∧
      (replayContainer env false st cid false).1.ops = st.ops ++ t) := by
  unfold replayContainer at hE ⊢
  rcases hL : stLookupOnline env st cid with ⟨st1, res⟩
  try rw [hL] at hE
  try rw [hL]
  rcases res with e | self
  · dsimp only at hE
    injection hE with _ hbad
    exact Except.noConfusion hbad
  · dsimp only at hE ⊢
    have hfr1 : sameButCache st1 st := by
      have hx := stLookupOnline_frame env st cid
      rw [hL] at hx
      exact hx
    have hw1 : heapWf st1.cache := by
      have hx := stLookupOnline_heapWf env st cid he hh
      rw [hL] at hx
      exact hx
    have hwfrules : ∀ r ∈ LoadRules st1 (st1.cache.deref self).id, ruleWf r := by
      intro r hrm
      unfold LoadRules at hrm
      rw [hfr1.2.1] at hrm
      rcases hfile : st.ruleFiles (st1.cache.deref self).id with _ | rs
      · rw [hfile] at hrm
        cases hrm
      · rw [hfile] at hrm
        exact hf _ rs hfile r hrm
    rcases hLoop : replayRulesLoop env true self st1
        (LoadRules st1 (st1.cache.deref self).id) [] false false with ⟨st2, res2⟩
    try rw [hLoop] at hE
    rcases res2 with e | trip
    · dsimp only at hE
      injection hE with _ hbad
      exact Except.noConfusion hbad
    · rcases trip with ⟨newRules, changed, h1⟩
      dsimp only at hE
      rw [if_neg (fun hc => hc.1 rfl)] at hE
      injection hE with hst hres
      subst hst
      injection hres with hres
      rcases replayRulesLoop_couple env self
          (LoadRules st1 (st1.cache.deref self).id) st1 [] hLoop hwfrules he hw1 with
        ⟨hch, hh1, hliveloop⟩ | ⟨hflag, t, ht, hops⟩
      · -- no change detected anywhere in this container
        left
        subst hch
        subst hh1
        constructor
        · rw [← hres]
          rfl
        · rw [hliveloop]
          dsimp only
          rw [if_neg (fun hc => Bool.false_ne_true hc.2)]
          rfl
      · -- a change was detected: the live run issued at least one operation
        right
        constructor
        · rw [← hres]
          rcases hflag with hc | hx
          · rw [hc]
            rfl
          · rw [hx]
            by_cases hcc : changed = true
            · rw [if_pos hcc]
            · rw [if_neg hcc]
        · rcases hLL : replayRulesLoop env false self st1
              (LoadRules st1 (st1.cache.deref self).id) [] false false with ⟨stL, resL⟩
          rw [hLL] at hops
          dsimp only at hops
          rcases resL with e | tripL
          · exact ⟨t, ht, by rw [hops, hfr1.2.2.2]⟩
          · rcases tripL with ⟨nrL, chL, h1L⟩
            dsimp only
            refine ⟨t, ht, ?_⟩
            split
            · show (SaveRules stL (st1.cache.deref self).id nrL).ops = st.ops ++ t
              show stL.ops = st.ops ++ t
              rw [hops, hfr1.2.2.2]
            · show stL.ops = st.ops ++ t
              rw [hops, hfr1.2.2.2]

theorem replayLoop_couple (env : DockerEnv) :
    ∀ (cids : List String) (st : FwState) {stD : FwState} {hD : Bool},
      replayLoop env true st cids false = (stD, Except.ok hD) →
      ruleFilesWf st.ruleFiles → envWf env → heapWf st.cache →
      (hD = false ∧ replayLoop env false st cids false = (stD, Except.ok false)) ∨
      (hD = true ∧ ∃ t, t ≠ [] ∧
        (replayLoop env false st cids false).1.ops = st.ops ++ t) := by
  intro cids
  induction cids with
  | nil =>
    intro st stD hD hE hf he hh
    rw [replayLoop_nil] at hE
    injection hE with h1 h2
    injection h2 with h2
    subst h1
    left
    exact ⟨h2.symm, by rw [replayLoop_nil, h2]⟩
  | cons cid rest ih =>
    intro st stD hD hE hf he hh
    rw [replayLoop_cons] at hE
    rcases hC : replayContainer env true st cid false with ⟨st1, res⟩
    try rw [hC] at hE
    rcases res with e | h1
    · dsimp only at hE
      injection hE with _ hbad
      exact Except.noConfusion hbad
    · dsimp only at hE
      have hfr1 : sameButCache st1 st := by
        have hx := replayContainer_dry_frame env st cid false
        rw [hC] at hx
        exact hx
      have hw1 : heapWf st1.cache := by
        have hx := replayContainer_state env true st cid false he hh
        rw [hC] at hx
        exact hx.1
      have hf1 : ruleFilesWf st1.ruleFiles := by
        rw [hfr1.2.1]
        exact hf
      rcases replayContainer_couple hC hf he hh with
        ⟨hh1, hliveC⟩ | ⟨hh1, t, ht, hops⟩
      · -- container produced no change: continue in lock step
        subst hh1
        rcases ih st1 hE hf1 he hw1 with
          ⟨hhD, hliveloop⟩ | ⟨hhD, t, ht, hops⟩
        · left
          refine ⟨hhD, ?_⟩
          rw [replayLoop_cons, hliveC]
          exact hliveloop
        · right
          refine ⟨hhD, t, ht, ?_⟩
          rw [replayLoop_cons, hliveC]
          dsimp only
          rw [hops, hfr1.2.2.2]
      · -- container issued an operation in the live run
        right
        have hhD : hD = true := replayLoop_flag env true rest st1 h1 hE hh1
        refine ⟨hhD, ?_⟩
        rw [replayLoop_cons]
        rcases hCL : replayContainer env false st cid false with ⟨stL, resL⟩
        rw [hCL] at hops
        dsimp only at hops
        have hwL : heapWf stL.cache := by
          have hx := replayContainer_state env false st cid false he hh
          rw [hCL] at hx
          exact hx.1
        rcases resL with e | hL1
        · exact ⟨t, ht, hops⟩
        · dsimp only
          have hls := replayLoop_state env false rest stL hL1 he hwL
          obtain ⟨t2, ht2⟩ := hls.2
          exact ⟨t ++ t2, by simp [ht], by rw [ht2, hops, List.append_assoc]⟩

/-- C1: a dry-run `ReplayRules` performs no firewall-backend mutation (its
operation log is unchanged) and no write to any rule file or host-config
file, and — over a well-formed starting state — it reports a non-zero result
exactly when the live run over the same starting state would issue at least
one insert, append or delete against the backend. -/
theorem replayRules_dry_frame_iff (env : DockerEnv) (st : FwState)
    (cids : List String) (stD : FwState) (n : Nat)
    (hE : ReplayRules env st cids true = (stD, Except.ok n))
    (hf : ruleFilesWf st.ruleFiles) (he : envWf env) (hh : heapWf st.cache) :
    sameButCache stD st ∧
    (n ≠ 0 ↔ (ReplayRules env st cids false).1.ops ≠ st.ops) := by
  unfold ReplayRules at hE ⊢
  rcases hL : replayLoop env true st cids false with ⟨st1, res⟩
  try rw [hL] at hE
  rcases res with e | hc
  · dsimp only at hE
    injection hE with _ hbad
    exact Except.noConfusion hbad
  · dsimp only at hE
    have hfr : sameButCache st1 st := by
      have hx := replayLoop_dry_frame env cids st false
      rw [hL] at hx
      exact hx
    rcases replayLoop_couple env cids st hL hf he hh with
      ⟨hc0, hlive⟩ | ⟨hc1, t, ht, hops⟩
    · subst hc0
      rw [if_neg (fun hcon => Bool.false_ne_true hcon.2)] at hE
      injection hE with h1 h2
      subst h1
      injection h2 with h2
      refine ⟨hfr, ?_⟩
      rw [← h2]
      constructor
      · intro hx
        exact absurd rfl hx
      · intro hx
        exfalso
        apply hx
        rw [hlive]
        dsimp only
        rw [if_neg (fun hcon => Bool.false_ne_true hcon.2)]
        exact hfr.2.2.2
    · rw [if_pos ⟨rfl, hc1⟩] at hE
      injection hE with h1 h2
      subst h1
      injection h2 with h2
      refine ⟨hfr, ?_⟩
      have hne : st.ops ++ t ≠ st.ops := by
        intro hcon
        have hlen := congrArg List.length hcon
        rw [List.length_append] at hlen
        have ht0 : t.length = 0 := by omega
        exact ht (List.eq_nil_of_length_eq_zero ht0)
      constructor
      · intro _
        rcases hLL : replayLoop env false st cids false with ⟨stL, resL⟩
        rw [hLL] at hops
        dsimp only at hops
        rcases resL with e | hx
        · dsimp only
          rw [hops]
          exact hne
        · dsimp only
          rw [if_neg (fun hcon => Bool.noConfusion hcon.1)]
          rw [hops]
          exact hne
      · intro _
        rw [← h2]
        exact one_ne_zero

theorem replayRules_dry_frame_iff_witness :
    sameButCache (ReplayRules envC1 stC1 ["web"] true).1 stC1 ∧
    ((1 : Nat) ≠ 0 ↔ (ReplayRules envC1 stC1 ["web"] false).1.ops ≠ stC1.ops) :=
  replayRules_dry_frame_iff envC1 stC1 ["web"]
    (ReplayRules envC1 stC1 ["web"] true).1 1 rfl
    (by
      intro k rs hk
      by_cases hkw : k = "w1"
      · subst hkw
        have hx : some [ruleC1] = some rs := hk
        injection hx with hx
        intro r hr
        rw [← hx] at hr
        rw [List.mem_singleton.mp hr]
        decide
      · rw [show stC1.ruleFiles k = none from if_neg hkw] at hk
        exact Option.noConfusion hk)
    (fun id c h => Option.noConfusion h)
    (by decide)

/-- C2: when a persisted rule carries a non-empty alias endpoint — source or
destination — whose current resolution differs from the stored address, the
live replay updates the rule's addresses in place and marks it changed,
attempts the delete of the old canonical text (the delete invocation is in
the final operation log), leaves the backend holding the new canonical text
right after that rule's step, and persists the updated collection to the
owning container's rule file. -/
theorem replayRules_stale_alias_update
    {env : DockerEnv} {st st1 stP stA stA2 stF : FwState} {cid : String}
    {self : Nat} {pre post accP : List ActiveIptablesRule}
    {r : ActiveIptablesRule} {cP hP : Bool} {v w : String} {cv cw hF : Bool}
    (hL : stLookupOnline env st cid = (st1, Except.ok self))
    (hrules : LoadRules st1 ((st1.cache.deref self).id) = pre ++ r :: post)
    (hpre : replayRulesLoop env false self st1 pre [] false false =
      (stP, Except.ok (accP, cP, hP)))
    (hsrc : dealiasEndpoint env stP self r.SourceAlias r.Source =
      (stA, Except.ok (v, cv)))
    (hchanged : cv = true ∨ cw = true)
    (hdst : dealiasEndpoint env stA self r.DestinationAlias r.Destination =
      (stA2, Except.ok (w, cw)))
    (hcont : replayContainer env false st cid false = (stF, Except.ok hF))
    (hr : ruleWf r) (he : envWf env) (hh : heapWf st.cache) :
    FwOp.del (ActiveIptablesRule.Format r) ∈ stF.ops ∧
    (∃ stR hR2,
      replayRule env false self stP r cP hP =
        (stR, Except.ok ({ r with Source := v, Destination := w }, true, hR2)) ∧
      RuleExists stR
        (ActiveIptablesRule.Format { r with Source := v, Destination := w }) = true) ∧
    (∃ rest, stF.ruleFiles ((st1.cache.deref self).id) =
      some (accP ++ { r with Source := v, Destination := w } :: rest)) := by
  have hw1 : heapWf st1.cache := by
    have hx := stLookupOnline_heapWf env st cid he hh
    rw [hL] at hx
    exact hx
  have hwP : heapWf stP.cache := by
    have hx := (replayRulesLoop_state env false self pre st1 [] false false he hw1).1
    rw [hpre] at hx
    exact hx
  have hsp := dealias_spec hsrc he hwP
  have hdp := dealias_spec hdst he hsp.2.1
  have hnsv : noSpace v := hsp.2.2.2.2 hr.2.2.1 hr.1
  have hnsw : noSpace w := hdp.2.2.2.2 hr.2.2.2.1 hr.2.1
  have hne : ActiveIptablesRule.Format { r with Source := v, Destination := w } ≠
      ActiveIptablesRule.Format r := by
    intro hcon
    have hinj := format_inj r v w hr.1 hr.2.1 hnsv hnsw hcon
    rcases hchanged with hcv | hcw
    · exact (hsp.2.2.2.1 hcv) hinj.1
    · exact (hdp.2.2.2.1 hcw) hinj.2
  rcases hB : replayRule env false self stP r cP hP with ⟨stR, resB⟩
  have hBorig := hB
  unfold replayRule at hB
  dsimp only at hB
  rw [hsrc] at hB
  dsimp only at hB
  rw [hdst] at hB
  dsimp only at hB
  rw [replayDropOld_live_ne _ _ _ _ hne] at hB
  dsimp only at hB
  rcases hEns : replayEnsure false
      (internalDelete stA2 (ActiveIptablesRule.Format r)).1
      { r with Source := v, Destination := w }
      (ActiveIptablesRule.Format { r with Source := v, Destination := w }) hP
    with ⟨st4, res4⟩
  rw [hEns] at hB
  unfold replayContainer at hcont
  rw [hL] at hcont
  dsimp only at hcont
  rw [hrules, replayRulesLoop_append, hpre] at hcont
  dsimp only at hcont
  rw [replayRulesLoop_cons, hBorig] at hcont
  rcases res4 with e | hc
  · dsimp only at hB
    injection hB with hst hres
    rw [← hres] at hcont
    dsimp only at hcont
    injection hcont with _ hbad
    exact Except.noConfusion hbad
  · dsimp only at hB
    injection hB with hst hres
    subst hst
    rw [← hres] at hcont
    dsimp only at hcont
    have hwR : heapWf st4.cache := by
      have hx := (replayRule_state env false self stP r cP hP he hwP).1
      rw [hBorig] at hx
      exact hx
    rcases hPost : replayRulesLoop env false self st4 post
        (accP ++ [{ r with Source := v, Destination := w }])
        (cP || cv || cw) hc with ⟨st2, res2⟩
    try rw [hPost] at hcont
    rcases res2 with e | trip2
    · dsimp only at hcont
      injection hcont with _ hbad
      exact Except.noConfusion hbad
    · rcases trip2 with ⟨newRules, cF, hFL⟩
      dsimp only at hcont
      have hcB : (cP || cv || cw) = true := by
        rcases hchanged with hcv | hcw
        · simp [hcv]
        · simp [hcw]
      have hcF : cF = true :=
        (replayRulesLoop_flags env false self post st4
          (accP ++ [{ r with Source := v, Destination := w }])
          (cP || cv || cw) hc hPost).1 hcB
      rw [if_pos ⟨fun hcc => Bool.noConfusion hcc, hcF⟩] at hcont
      injection hcont with hstF _
      have hdel := internalDelete_frame stA2 (ActiveIptablesRule.Format r)
      have hesE := replayEnsure_state false
        (internalDelete stA2 (ActiveIptablesRule.Format r)).1
        { r with Source := v, Destination := w }
        (ActiveIptablesRule.Format { r with Source := v, Destination := w }) hP
      rw [hEns] at hesE
      dsimp only at hesE
      obtain ⟨t2, ht2⟩ := hesE.2.2.2
      have hmemR : FwOp.del (ActiveIptablesRule.Format r) ∈ st4.ops := by
        rw [ht2, hdel.2.2.2]
        simp
      have hlsP := replayRulesLoop_state env false self post st4
        (accP ++ [{ r with Source := v, Destination := w }])
        (cP || cv || cw) hc he hwR
      rw [hPost] at hlsP
      dsimp only at hlsP
      obtain ⟨t3, ht3⟩ := hlsP.2.2.2
      obtain ⟨more, hmore⟩ := replayRulesLoop_acc env false self post st4
        (accP ++ [{ r with Source := v, Destination := w }])
        (cP || cv || cw) hc hPost
      refine ⟨?_, ⟨st4, hc, ?_, ?_⟩, ⟨more, ?_⟩⟩
      · rw [← hstF]
        show FwOp.del (ActiveIptablesRule.Format r) ∈ st2.ops
        rw [ht3]
        exact List.mem_append_left t3 hmemR
      · rw [← hres, hcB]
      · exact replayEnsure_ok_exists hEns
      · rw [← hstF]
        show (if (st1.cache.deref self).id = (st1.cache.deref self).id then
            some newRules
          else st2.ruleFiles (st1.cache.deref self).id) =
          some (accP ++ { r with Source := v, Destination := w } :: more)
        rw [if_pos rfl, hmore]
        simp

theorem replayRules_stale_alias_update_witness :
    FwOp.del (ActiveIptablesRule.Format ruleC2) ∈
      (replayContainer envC2 false stC2 "web" false).1.ops ∧
    (∃ stR hR2,
      replayRule envC2 false 0 stC2 ruleC2 false false =
        (stR, Except.ok
          ({ ruleC2 with Source := "10.0.0.11/32", Destination := "10.0.0.5/32" },
            true, hR2)) ∧
      RuleExists stR
        (ActiveIptablesRule.Format
          { ruleC2 with Source := "10.0.0.11/32", Destination := "10.0.0.5/32" }) = true) ∧
    (∃ rest, (replayContainer envC2 false stC2 "web" false).1.ruleFiles
        ((stC2.cache.deref 0).id) =
      some ([] ++
        { ruleC2 with Source := "10.0.0.11/32", Destination := "10.0.0.5/32" } :: rest)) :=
  replayRules_stale_alias_update
    (show stLookupOnline envC2 stC2 "web" = (stC2, Except.ok 0) from rfl)
    (show LoadRules stC2 ((stC2.cache.deref 0).id) = [] ++ ruleC2 :: [] from rfl)
    (show replayRulesLoop envC2 false 0 stC2 [] [] false false =
      (stC2, Except.ok ([], false, false)) from rfl)
    (show dealiasEndpoint envC2 stC2 0 ruleC2.SourceAlias ruleC2.Source =
      (stC2, Except.ok ("10.0.0.11/32", true)) from rfl)
    (Or.inl rfl)
    (show dealiasEndpoint envC2 stC2 0 ruleC2.DestinationAlias ruleC2.Destination =
      (stC2, Except.ok ("10.0.0.5/32", false)) from rfl)
    (show replayContainer envC2 false stC2 "web" false =
      ((replayContainer envC2 false stC2 "web" false).1, Except.ok true) from rfl)
    (by decide) (fun id c h => Option.noConfusion h) (by decide)
